import Mathlib

/-!
Verification development for libzstd-seek (zstd-seek.c / zstd-seek.h).

The compressed image is modelled as a `Source`: the raw byte view
(`bytes`, used by the seekable-format trailer parser, which reads
little-endian 32-bit words at offsets relative to the end) together with
its framing (`frames`): the sequence of Zstandard frames, each carrying
its compressed length `clen` and the uncompressed bytes `content` it
decodes to.  The Zstandard codec itself is an external dependency of the
library; it is modelled through the framing: `ZSTD_findFrameCompressedSize`
returns the `clen` of the frame starting at the given offset (0 when no
frame starts there, which merges the end-of-data and error exits of the
scan loops, exactly the two cases the C code treats alike), and the
streaming decoder session is a cursor `sessionPos` into the current
frame's `content`, producing up to one output-buffer-full of bytes per
call and consuming the frame's input exactly when its output is complete.

Machine integers: positions and sizes are `size_t` in C and are modelled
as `Nat`; the seekable-trailer arithmetic uses `uint32` locals in C and is
modelled with explicit `% 2^32`; `ZSTDSeek_seek` takes a C `long`,
modelled as `Int`.  C loops are modelled with explicit fuel large enough
to cover every terminating execution; fuel exhaustion models divergence.
-/

namespace ZSeek

/-- One Zstandard frame of the compressed image: its compressed byte
length and the uncompressed bytes it decodes to.  A skippable frame
(such as the seek-table trailer) has `content = []`. -/
structure Frame where
  clen : Nat
  content : List Nat
  deriving Repr, DecidableEq

/-- The compressed image: raw bytes (read by the trailer parser) plus its
framing (read by the frame-level codec model). -/
structure Source where
  bytes : List Nat
  frames : List Frame
  deriving Repr, DecidableEq

/-- Compressed offset at which frame `k` starts. -/
def cStart (fs : List Frame) (k : Nat) : Nat :=
  ((fs.take k).map Frame.clen).sum

/-- Uncompressed offset at which frame `k`'s contribution starts. -/
def uStart (fs : List Frame) (k : Nat) : Nat :=
  ((fs.take k).map (fun f => f.content.length)).sum

/-- Total compressed length of the framed part of the image. -/
def totalC (src : Source) : Nat := cStart src.frames src.frames.length

/-- Total uncompressed size: the ground-truth stream length. -/
def totalU (src : Source) : Nat := uStart src.frames src.frames.length

/-- The ground-truth uncompressed stream: concatenation of all frame
contents, in order. -/
def groundTruth (src : Source) : List Nat :=
  (src.frames.map Frame.content).flatten

/-- Bytes `[a, a+n)` of a list (used to state slices of the ground
truth and of the staging buffer). -/
def sliceL (l : List Nat) (a n : Nat) : List Nat := (l.drop a).take n

/-- Index of the frame that starts exactly at compressed offset `p`,
if any. -/
def frameIdxAt : List Frame → Nat → Option Nat
  | [], _ => none
  | f :: rest, p =>
      if p = 0 then some 0
      else if p < f.clen then none
      else (frameIdxAt rest (p - f.clen)).map Nat.succ

/-- Frame `k` of the source (default irrelevant: only used under a
`frameIdxAt … = some k` fact). -/
def frameAt (src : Source) (k : Nat) : Frame := src.frames.getD k ⟨0, []⟩

/-- Uncompressed bytes contributed by frames `k, k+1, …`. -/
def joinFrom (src : Source) (k : Nat) : List Nat :=
  ((src.frames.drop k).map Frame.content).flatten

/-- Model of `ZSTD_findFrameCompressedSize` probing at compressed offset
`p`: the compressed length of the frame starting there, and 0 when no
frame starts there (merging the error and past-the-end exits, which the
C scan loops treat identically). -/
def findFrameCompressedSize (src : Source) (p : Nat) : Nat :=
  match frameIdxAt src.frames p with
  | some k => (frameAt src k).clen
  | none => 0

/-- Little-endian 32-bit read at byte offset `off` (out-of-range bytes
read as 0; a well-formed image never reads out of range). -/
def readU32 (bs : List Nat) (off : Nat) : Nat :=
  bs.getD off 0 + 256 * bs.getD (off+1) 0 + 65536 * bs.getD (off+2) 0
    + 16777216 * bs.getD (off+3) 0

/-- Mirrors `ZSTDSeek_JumpTableRecord`. -/
structure JTRecord where
  compressedPos : Nat
  uncompressedPos : Nat
  deriving Repr, DecidableEq

/-- Mirrors `ZSTDSeek_JumpCoordinate`. -/
structure JumpCoordinate where
  compressedOffset : Nat
  uncompressedOffset : Nat
  jtr : JTRecord
  deriving Repr, DecidableEq

/-- Model of `ZSTD_DStreamOutSize()` (the codec's recommended streaming
output buffer size; any positive value works, this is zstd's actual
value). -/
def dStreamOutSize : Nat := 131075

/-- `SIZE_MAX`. -/
def sizeMax : Nat := 2 ^ 64 - 1

/-- Error constants from zstd-seek.h. -/
def errNegativeSeek : Int := -1
def errBeyondEndSeek : Int := -2
def errRead : Int := -3

/-- `SEEK_SET` / `SEEK_CUR` / `SEEK_END`. -/
def seekSetOrigin : Nat := 0
def seekCurOrigin : Nat := 1
def seekEndOrigin : Nat := 2

/-- Mirrors `ZSTDSeek_Context_s`.  Pointers into the mapped buffer
(`inBuff`, `input.src`) are modelled as byte offsets from the start of
the image; the staging buffer `tmpOutBuff` is modelled by the list
`staging` of its filled bytes, so `output.pos = staging.length`;
the streaming decompression session is `sessionPos`, the number of
uncompressed bytes of the current frame already produced. -/
structure Context where
  src : Source
  lastFrameCompressedSize : Nat
  currentUncompressedPos : Nat
  currentCompressedPos : Nat
  jt : List JTRecord
  jumpTableFullyInit : Bool
  jc : JumpCoordinate
  tmpOutBuffSize : Nat
  staging : List Nat
  tmpOutBuffPos : Nat
  mmapFd : Int
  inBuffOff : Nat
  inputBaseOff : Nat
  inputSize : Nat
  inputPos : Nat
  sessionPos : Nat
  deriving Repr, DecidableEq

/-- Mirrors `ZSTDSeek_lastKnownUncompressedFileSize` on a non-null
context: the last record's `uncompressedPos`, or 0 on an empty table. -/
def lastKnownSize (st : Context) : Nat :=
  match st.jt.getLast? with
  | some r => r.uncompressedPos
  | none => 0

/- Seekable-format trailer parsing (lines 113-154 of zstd-seek.c).
The footer is the last `ZSTD_SEEK_TABLE_FOOTER_SIZE = 9` bytes. -/

/-- Byte offset of the 9-byte seek-table footer. -/
def footerOff (src : Source) : Nat := src.bytes.length - 9

/-- The seek-table descriptor byte (footer byte 4). -/
def sfdByte (src : Source) : Nat := src.bytes.getD (footerOff src + 4) 0

/-- Checksum flag: bit 7 of the descriptor. -/
def checksumFlag (src : Source) : Nat := sfdByte src / 128

/-- The frame count read from the footer. -/
def numFramesField (src : Source) : Nat := readU32 src.bytes (footerOff src)

/-- Bytes per seek-table entry: 8, plus 4 when checksums are present. -/
def sizePerEntry (src : Source) : Nat :=
  8 + (if checksumFlag src ≠ 0 then 4 else 0)

/-- `tableSize` (uint32 product). -/
def tableSizeField (src : Source) : Nat :=
  (sizePerEntry src * numFramesField src) % 2 ^ 32

/-- Expected total size of the skippable trailer frame (uint32 sum). -/
def trailerFrameSize (src : Source) : Nat :=
  (tableSizeField src + 9 + 8) % 2 ^ 32

/-- Byte offset of the skippable trailer frame (size_t subtraction;
truncated at 0, which a well-formed image never hits). -/
def trailerOff (src : Source) : Nat := src.bytes.length - trailerFrameSize src

/-- Check 0 (line 116): the footer carries the seekable magic
`0x8F92EAB1`. -/
def seekMagicOK (src : Source) : Prop :=
  readU32 src.bytes (footerOff src + 5) = 0x8F92EAB1

/-- Check 1 (line 122): descriptor bits 2-6 are zero. -/
def reservedOK (src : Source) : Prop := sfdByte src / 4 % 32 = 0

/-- Check 2 (line 132): the trailer frame starts with the skippable
magic `ZSTD_MAGIC_SKIPPABLE_START | 0xE`. -/
def skipMagicOK (src : Source) : Prop :=
  readU32 src.bytes (trailerOff src) = 0x184D2A5E

/-- Check 3 (line 136): the embedded frame size plus the 8-byte
skippable header equals the computed trailer frame size. -/
def sizeMatchOK (src : Source) : Prop :=
  (readU32 src.bytes (trailerOff src + 4) + 8) % 2 ^ 32 = trailerFrameSize src

instance (src : Source) : Decidable (seekMagicOK src) := by
  unfold seekMagicOK; infer_instance
instance (src : Source) : Decidable (reservedOK src) := by
  unfold reservedOK; infer_instance
instance (src : Source) : Decidable (skipMagicOK src) := by
  unfold skipMagicOK; infer_instance
instance (src : Source) : Decidable (sizeMatchOK src) := by
  unfold sizeMatchOK; infer_instance

/-- The trailer-import loop (lines 140-147): one record per entry,
accumulating uint32 offsets from (0,0), then the final record with the
accumulated totals. -/
def importTable (src : Source) (jt : List JTRecord) : List JTRecord :=
  let table := trailerOff src + 8
  let step := fun (acc : List JTRecord × Nat × Nat) (i : Nat) =>
    (acc.1 ++ [⟨acc.2.1, acc.2.2⟩],
     (acc.2.1 + readU32 src.bytes (table + i * sizePerEntry src)) % 2 ^ 32,
     (acc.2.2 + readU32 src.bytes (table + i * sizePerEntry src + 4)) % 2 ^ 32)
  let r := (List.range (numFramesField src)).foldl step (jt, 0, 0)
  r.1 ++ [⟨r.2.1, r.2.2⟩]

/-- One step of the linear scan (lines 169-214): walk the remaining
frames, appending a record at each frame start whose uncompressed
position strictly exceeds the current tail (the dedup check of line
172), until the frames run out or the target position is covered.
Returns (table, fullyInit flag, final compressed pos, final
uncompressed pos).  The frame-content-size probe of line 170 is the
frame's `content.length`; when the codec reports the size as unknown the
C code measures it by a full streaming decompression, which on a
decodable frame yields the same number. -/
def scanLoop : List Frame → Nat → Nat → List JTRecord → Nat →
    List JTRecord × Bool × Nat × Nat
  | [], cPos, uPos, jt, _ => (jt, true, cPos, uPos)
  | f :: rest, cPos, uPos, jt, up =>
      let jt1 := if jt = [] ∨ (jt.getLast?.getD ⟨0,0⟩).uncompressedPos < uPos
        then jt ++ [⟨cPos, uPos⟩] else jt
      let cPos1 := cPos + f.clen
      let uPos1 := uPos + f.content.length
      if uPos1 ≥ up then (jt1, false, cPos1, uPos1)
      else scanLoop rest cPos1 uPos1 jt1 up

/-- The linear-scan strategy (lines 156-223): resume from the last
record (or from (0,0)), scan, then append the tail record if the scan
advanced past the current last record; fails with -1 only when the table
ends up empty (zero frames found). -/
def linearScanPart (st : Context) (up : Nat) : Int × Context :=
  let cPos := (st.jt.getLast?.getD ⟨0,0⟩).compressedPos
  let uPos := (st.jt.getLast?.getD ⟨0,0⟩).uncompressedPos
  let rem := match frameIdxAt st.src.frames cPos with
    | some k => st.src.frames.drop k
    | none => []
  let r := scanLoop rem cPos uPos st.jt up
  let jt1 := r.1
  if jt1 = [] then (-1, { st with jt := jt1, jumpTableFullyInit := r.2.1 })
  else
    let jt2 := if (jt1.getLast?.getD ⟨0,0⟩).uncompressedPos < r.2.2.2
      then jt1 ++ [⟨r.2.2.1, r.2.2.2⟩] else jt1
    (0, { st with jt := jt2, jumpTableFullyInit := r.2.1 })

/-- Mirrors `ZSTDSeek_initializeJumpTableUpUntilPos` on a non-null
context: import the seekable-format trailer when all four checks pass
(appending its records and marking the table fully initialized),
otherwise fall through to the linear scan. -/
def initJumpTableUpUntilPos (st : Context) (up : Nat) : Int × Context :=
  if seekMagicOK st.src ∧ reservedOK st.src ∧ skipMagicOK st.src ∧
      sizeMatchOK st.src then
    (0, { st with jt := importTable st.src st.jt, jumpTableFullyInit := true })
  else linearScanPart st up

/-- Mirrors `ZSTDSeek_initializeJumpTable`. -/
def initJumpTable (st : Context) : Int × Context :=
  initJumpTableUpUntilPos st sizeMax

/-- The binary-search loop of `ZSTDSeek_getJumpCoordinate` (lines
236-247).  `l`, `r`, `m` are `uint32`, so `r = m - 1` and the initial
`r = length - 1` wrap modulo `2^32`; out-of-range record reads (possible
only in states unreachable through the API, where the C code's behaviour
is undefined) yield the record (0,0).  The loop is modelled with fuel;
exhaustion returns the post-loop fallback coordinate of line 256. -/
def binSearchLoop (records : List JTRecord) (target : Nat) :
    Nat → Nat → Nat → JumpCoordinate
  | _, _, 0 => ⟨0, target, ⟨0, 0⟩⟩
  | l, r, fuel + 1 =>
      if l ≤ r then
        if (records.getD ((l + r) % 2 ^ 32 / 2) ⟨0, 0⟩).uncompressedPos >
            target then
          binSearchLoop records target l
            (((l + r) % 2 ^ 32 / 2 + 2 ^ 32 - 1) % 2 ^ 32) fuel
        else if (l + r) % 2 ^ 32 / 2 + 1 < records.length ∧
            (records.getD ((l + r) % 2 ^ 32 / 2 + 1) ⟨0,0⟩).uncompressedPos ≤
              target then
          binSearchLoop records target ((l + r) % 2 ^ 32 / 2 + 1) r fuel
        else
          ⟨(records.getD ((l + r) % 2 ^ 32 / 2) ⟨0, 0⟩).compressedPos,
           target - (records.getD ((l + r) % 2 ^ 32 / 2) ⟨0, 0⟩).uncompressedPos,
           records.getD ((l + r) % 2 ^ 32 / 2) ⟨0, 0⟩⟩
      else ⟨0, target, ⟨0, 0⟩⟩

/-- Mirrors `ZSTDSeek_getJumpCoordinate`: lazily extend the jump table
when it does not yet cover the target, then binary-search it.  Returns
the coordinate together with the (possibly extended) context. -/
def getJumpCoordinate (st : Context) (target : Nat) : JumpCoordinate × Context :=
  let st1 :=
    if ¬st.jumpTableFullyInit ∧ (st.jt = [] ∨
        (st.jt.getLast?.getD ⟨0,0⟩).uncompressedPos ≤ target) then
      (initJumpTableUpUntilPos st target).2
    else st
  (binSearchLoop st1.jt target 0 ((st1.jt.length + 2 ^ 32 - 1) % 2 ^ 32)
    (st1.jt.length + 64), st1)

/-- Result of `ZSTDSeek_read`: the returned count, the bytes delivered
to the caller's buffer, and the final context — or the
`ZSTDSEEK_ERR_READ` exit of line 423. -/
inductive ReadRes where
  | ok (count : Nat) (out : List Nat) (st : Context)
  | rerr (st : Context)
  deriving Repr, DecidableEq

/-- One `ZSTD_decompressStream` call on the session, with `cap` bytes of
room in the output buffer: produce the next `min cap (remaining)` bytes
of the current frame's content, consuming the frame's input exactly when
its output is complete (at which point the session is ready for the next
frame, `sessionPos = 0`).  Returns `(input.pos, produced bytes,
sessionPos)` afterwards, or `none` — a decode error — when no frame
starts at the input base. -/
def decompressStep (src : Source) (inputBaseOff inputSize inputPos
    sessionPos cap : Nat) : Option (Nat × List Nat × Nat) :=
  match frameIdxAt src.frames inputBaseOff with
  | none => none
  | some k =>
      let content := (frameAt src k).content
      let produce := min cap (content.length - sessionPos)
      let chunk := sliceL content sessionPos produce
      if sessionPos + produce ≥ content.length then some (inputSize, chunk, 0)
      else some (inputPos, chunk, sessionPos + produce)

/-- The discard-then-copy step shared by the two drain sites of
`ZSTDSeek_read` (lines 396-408 and 428-439).  If the pending discard
quota `jc.uncompressedOffset` exceeds the filled amount `output.pos`,
consume the filled amount from the quota; otherwise copy
`min ((output.pos - tmpOutBuffPos) - quota) toRead` bytes starting at
`tmpOutBuffPos + quota`, advance the uncompressed position and the
staging cursor, and zero the quota.  (The `size_t` subtraction in
`maxCopy` is exact in every state reachable through the API, where a
positive quota entails `tmpOutBuffPos = 0`; `Nat` subtraction truncates
where C would wrap.)  Returns (context, toRead, delivered bytes). -/
def drainQuota (st : Context) (toRead : Nat) (acc : List Nat) :
    Context × Nat × List Nat :=
  let quota := st.jc.uncompressedOffset
  if quota > st.staging.length then
    ({ st with jc := { st.jc with uncompressedOffset := quota - st.staging.length } },
     toRead, acc)
  else
    let maxCopy := st.staging.length - st.tmpOutBuffPos - quota
    let toCopy := min maxCopy toRead
    ({ st with
        currentUncompressedPos := st.currentUncompressedPos + toCopy,
        tmpOutBuffPos := st.tmpOutBuffPos + toCopy + quota,
        jc := { st.jc with uncompressedOffset := 0 } },
     toRead - toCopy,
     acc ++ sliceL st.staging (st.tmpOutBuffPos + quota) toCopy)

/-- The inner decompression loop of `ZSTDSeek_read` (lines 416-445):
while the current frame's input is not exhausted, reset the staging
buffer, decompress one chunk, account the compressed position, drain,
and stop early once the request is satisfied. -/
def innerLoop : Nat → Context → Nat → List Nat →
    (Context × Nat × List Nat) ⊕ Context
  | 0, st, toRead, acc => Sum.inl (st, toRead, acc)
  | fuel + 1, st, toRead, acc =>
      if st.inputPos < st.inputSize then
        match decompressStep st.src st.inputBaseOff st.inputSize st.inputPos
            st.sessionPos st.tmpOutBuffSize with
        | none => Sum.inr st
        | some (ip1, chunk, sp1) =>
            let st1 := { st with
              staging := chunk, tmpOutBuffPos := 0,
              inputPos := ip1, sessionPos := sp1,
              currentCompressedPos := st.currentCompressedPos + ip1 }
            let d := drainQuota st1 toRead acc
            if d.2.1 = 0 then Sum.inl (d.1, 0, d.2.2)
            else innerLoop fuel d.1 d.2.1 d.2.2
      else Sum.inl (st, toRead, acc)

/-- Body of one outer-loop iteration of `ZSTDSeek_read` (lines 412-453,
after the loop condition has been evaluated): bind the next frame when
the input range is exhausted, run the inner loop, and advance `inBuff`
past the frame once its input is fully consumed. -/
def outerBody (innerFuel : Nat) (st : Context) (toRead : Nat)
    (acc : List Nat) : (Context × Nat × List Nat) ⊕ Context :=
  let st1 := if st.inputPos = st.inputSize then
      { st with
        inputBaseOff := st.inBuffOff,
        inputSize := st.lastFrameCompressedSize, inputPos := 0 }
    else st
  match innerLoop innerFuel st1 toRead acc with
  | Sum.inr st2 => Sum.inr st2
  | Sum.inl (st2, toRead2, acc2) =>
      let st3 := if st2.inputPos = st2.inputSize then
          { st2 with inBuffOff := st2.inBuffOff + st2.lastFrameCompressedSize }
        else st2
      Sum.inl (st3, toRead2, acc2)

/-- The outer loop of `ZSTDSeek_read` (line 411): while bytes are still
wanted and either the bound input range has bytes left or a next frame
can be probed at `inBuff` (storing its size in
`lastFrameCompressedSize`), run the body. -/
def outerLoop (innerFuel : Nat) : Nat → Context → Nat → List Nat →
    (Context × Nat × List Nat) ⊕ Context
  | 0, st, toRead, acc => Sum.inl (st, toRead, acc)
  | fuel + 1, st, toRead, acc =>
      if toRead = 0 then Sum.inl (st, toRead, acc)
      else
        let cont := fun (stc : Context) =>
          match outerBody innerFuel stc toRead acc with
          | Sum.inr st2 => Sum.inr st2
          | Sum.inl (st2, toRead2, acc2) =>
              if toRead2 = 0 then Sum.inl (st2, toRead2, acc2)
              else outerLoop innerFuel fuel st2 toRead2 acc2
        if st.inputPos < st.inputSize then cont st
        else
          let fcs := findFrameCompressedSize st.src st.inBuffOff
          if fcs > 0 then cont { st with lastFrameCompressedSize := fcs }
          else Sum.inl (st, toRead, acc)

/-- Fuel for the inner loop: each iteration either finishes the frame or
produces at least one byte of its content, so the total uncompressed
size bounds the iteration count of every terminating run. -/
def innerFuelOf (src : Source) : Nat := totalU src + 2

/-- Fuel for the outer loop: each iteration past the first completes one
frame. -/
def outerFuelOf (src : Source) : Nat := src.frames.length + 2

/-- Mirrors `ZSTDSeek_read` on a non-null context. -/
def readCtx (st : Context) (outBuffSize : Nat) : ReadRes :=
  let g := getJumpCoordinate st st.currentUncompressedPos
  let st1 := { g.2 with currentCompressedPos := g.1.jtr.compressedPos }
  let maxReadable := lastKnownSize st1 - st1.currentUncompressedPos
  let toRead := min maxReadable outBuffSize
  let shouldRead := toRead
  let d := if st1.tmpOutBuffPos < st1.staging.length
    then drainQuota st1 toRead [] else (st1, toRead, [])
  match outerLoop (innerFuelOf st1.src) (outerFuelOf st1.src) d.1 d.2.1 d.2.2 with
  | Sum.inr st2 => ReadRes.rerr st2
  | Sum.inl (st2, toRead2, acc2) => ReadRes.ok (shouldRead - toRead2) acc2 st2

/-- The skip-forward loop of `ZSTDSeek_seek` (lines 510-513): read into
a throwaway buffer until the target is reached.  A decode error makes
the C loop subtract a huge `size_t` and effectively diverge, as does a
read that returns 0 forever; fuel exhaustion models both (none is
reachable through the API on a decodable source). -/
def skipLoop : Nat → Context → Nat → Context
  | 0, st, _ => st
  | fuel + 1, st, toSkipTotal =>
      if toSkipTotal = 0 then st
      else
        let toSkip := min dStreamOutSize toSkipTotal
        match readCtx st toSkip with
        | ReadRes.ok cnt _ st1 => skipLoop fuel st1 (toSkipTotal - cnt)
        | ReadRes.rerr st1 => st1

/-- The `SEEK_SET` core of `ZSTDSeek_seek` (lines 474-516): bounds
checks, the already-there short-circuit, then either the reset path
(different frame or backward move: reset the session and adopt the new
jump coordinate) or the skip-forward path. -/
def seekSet (st : Context) (offset : Int) : Int × Context :=
  if offset < 0 then (errNegativeSeek, st)
  else
    let off := offset.toNat
    let st1 := if offset > 0 then
        (getJumpCoordinate st (st.currentUncompressedPos + off)).2
      else st
    if offset > 0 ∧ off > lastKnownSize st1 then (errBeyondEndSeek, st1)
    else if off = st1.currentUncompressedPos then (0, st1)
    else
      let g := getJumpCoordinate st1 off
      let newJc := g.1
      let st2 := g.2
      if st2.jc.compressedOffset ≠ newJc.compressedOffset ∨
          off < st2.currentUncompressedPos then
        (0, { st2 with
          jc := newJc,
          inBuffOff := newJc.compressedOffset,
          currentUncompressedPos := off,
          currentCompressedPos := newJc.compressedOffset,
          tmpOutBuffPos := 0,
          inputBaseOff := newJc.compressedOffset, inputSize := 0, inputPos := 0,
          staging := [],
          sessionPos := 0 })
      else
        (0, skipLoop (off - st2.currentUncompressedPos + 1) st2
          (off - st2.currentUncompressedPos))

/-- Mirrors `ZSTDSeek_uncompressedFileSize` on a non-null context:
force full initialization, then report the last known size.  Returns
the size together with the updated context. -/
def uncompressedFileSizeCtx (st : Context) : Nat × Context :=
  let r := initJumpTable st
  (lastKnownSize r.2, r.2)

/-- Mirrors `ZSTDSeek_seek` on a non-null context (lines 464-522):
translate `SEEK_CUR` / `SEEK_END` to an absolute offset (with the
`SEEK_CUR` zero-offset short-circuit), run the `SEEK_SET` core, and
reject any other origin with -1. -/
def seekCtx (st : Context) (offset : Int) (origin : Nat) : Int × Context :=
  if origin = seekCurOrigin then
    if offset = 0 then (0, st)
    else seekSet st ((st.currentUncompressedPos : Int) + offset)
  else if origin = seekEndOrigin then
    let r := uncompressedFileSizeCtx st
    seekSet r.2 ((r.1 : Int) + offset)
  else if origin = seekSetOrigin then seekSet st offset
  else (-1, st)

/-- Mirrors `ZSTDSeek_tell` on a non-null context. -/
def tellCtx (st : Context) : Int := (st.currentUncompressedPos : Int)

/-- Mirrors `ZSTDSeek_compressedTell` on a non-null context. -/
def compressedTellCtx (st : Context) : Int := (st.currentCompressedPos : Int)

/-- Mirrors `ZSTDSeek_countFramesUpTo` on a non-null context: an
independent linear walk of the frame headers, not touching the jump
table. -/
def countFramesUpTo (st : Context) (upTo : Nat) : Nat :=
  let rec go : List Frame → Nat → Nat → Nat
    | [], _, counter => counter
    | f :: rest, p, counter =>
        match frameIdxAt (f :: rest) 0 with
        | none => counter
        | some _ =>
            if counter + 1 ≥ upTo then upTo
            else go rest (p + f.clen) (counter + 1)
  go st.src.frames 0 0

/-- Mirrors `ZSTDSeek_createWithoutJumpTable`: build the fresh context
(lines 330-360) and reject a source whose start is not a valid frame
(line 363). -/
def createWithoutJumpTable (src : Source) : Option Context :=
  let st : Context := {
    src := src,
    lastFrameCompressedSize := 0,
    currentUncompressedPos := 0,
    currentCompressedPos := 0,
    jt := [],
    jumpTableFullyInit := false,
    jc := ⟨0, 0, ⟨0, 0⟩⟩,
    tmpOutBuffSize := dStreamOutSize,
    staging := [],
    tmpOutBuffPos := 0,
    mmapFd := -1,
    inBuffOff := 0,
    inputBaseOff := 0,
    inputSize := 0,
    inputPos := 0,
    sessionPos := 0 }
  if findFrameCompressedSize src 0 = 0 then none else some st

/-- Mirrors `ZSTDSeek_create`: create, then initialize the jump table,
failing when either step fails. -/
def create (src : Source) : Option Context :=
  match createWithoutJumpTable src with
  | none => none
  | some st =>
      let r := initJumpTable st
      if r.1 ≠ 0 then none else some r.2

/- Null-safety wrappers: the exposed API takes a possibly-NULL
`ZSTDSeek_Context*`, modelled as `Option Context` (`none` = NULL).
Operations that check for NULL return their sentinel totally; for the
two that dereference without a check (`ZSTDSeek_fileno`,
`ZSTDSeek_jumpTableIsInitialized`, lines 563-565 and 226-228) the result
on `none` is `none`: no defined result exists, modelling the undefined
behaviour of the dereference. -/

/-- Mirrors `ZSTDSeek_read` (NULL → returns 0 with no output). -/
def ZSTDSeek_read (sctx : Option Context) (outBuffSize : Nat) : ReadRes :=
  match sctx with
  | none => ReadRes.ok 0 [] default_ctx
  | some st => readCtx st outBuffSize
where
  /-- Placeholder context for the NULL early-return (the C caller's
  context is unchanged because there is none). -/
  default_ctx : Context := {
    src := ⟨[], []⟩, lastFrameCompressedSize := 0,
    currentUncompressedPos := 0, currentCompressedPos := 0, jt := [],
    jumpTableFullyInit := false, jc := ⟨0, 0, ⟨0, 0⟩⟩,
    tmpOutBuffSize := 0, staging := [], tmpOutBuffPos := 0, mmapFd := -1,
    inBuffOff := 0, inputBaseOff := 0, inputSize := 0, inputPos := 0,
    sessionPos := 0 }

/-- Mirrors `ZSTDSeek_seek` (NULL → -1, no state). -/
def ZSTDSeek_seek (sctx : Option Context) (offset : Int) (origin : Nat) :
    Int × Option Context :=
  match sctx with
  | none => (-1, none)
  | some st => let r := seekCtx st offset origin; (r.1, some r.2)

/-- Mirrors `ZSTDSeek_tell` (NULL → -1). -/
def ZSTDSeek_tell (sctx : Option Context) : Int :=
  match sctx with
  | none => -1
  | some st => tellCtx st

/-- Mirrors `ZSTDSeek_compressedTell` (NULL → -1). -/
def ZSTDSeek_compressedTell (sctx : Option Context) : Int :=
  match sctx with
  | none => -1
  | some st => compressedTellCtx st

/-- Mirrors `ZSTDSeek_uncompressedFileSize` (NULL → 0). -/
def ZSTDSeek_uncompressedFileSize (sctx : Option Context) :
    Nat × Option Context :=
  match sctx with
  | none => (0, none)
  | some st => let r := uncompressedFileSizeCtx st; (r.1, some r.2)

/-- Mirrors `ZSTDSeek_lastKnownUncompressedFileSize` (NULL → 0). -/
def ZSTDSeek_lastKnownUncompressedFileSize (sctx : Option Context) : Nat :=
  match sctx with
  | none => 0
  | some st => lastKnownSize st

/-- Mirrors `ZSTDSeek_fileno`: NO null check in the C source (line 564
dereferences `sctx` unconditionally), so a NULL argument has no defined
result. -/
def ZSTDSeek_fileno (sctx : Option Context) : Option Int :=
  match sctx with
  | none => none
  | some st => some st.mmapFd

/-- Mirrors `ZSTDSeek_jumpTableIsInitialized`: NO null check in the C
source (line 227 dereferences `sctx` unconditionally), so a NULL
argument has no defined result. -/
def ZSTDSeek_jumpTableIsInitialized (sctx : Option Context) : Option Bool :=
  match sctx with
  | none => none
  | some st => some st.jumpTableFullyInit

/-- Mirrors `ZSTDSeek_getNumberOfFrames` (via `countFramesUpTo`, which
checks for NULL and returns 0). -/
def ZSTDSeek_getNumberOfFrames (sctx : Option Context) : Nat :=
  match sctx with
  | none => 0
  | some st => countFramesUpTo st sizeMax

/-- Mirrors `ZSTDSeek_isMultiframe` (via `countFramesUpTo`). -/
def ZSTDSeek_isMultiframe (sctx : Option Context) : Bool :=
  match sctx with
  | none => decide (0 > 1)
  | some st => decide (countFramesUpTo st 2 > 1)

/-- Mirrors `ZSTDSeek_getJumpTableOfContext` (NULL → NULL sentinel,
here `none`). -/
def ZSTDSeek_getJumpTableOfContext (sctx : Option Context) :
    Option (List JTRecord) :=
  match sctx with
  | none => none
  | some st => some st.jt

/-- Mirrors `ZSTDSeek_free`: the NULL check returns immediately;
resource release has no observable effect in the pure model. -/
def ZSTDSeek_free (sctx : Option Context) : Unit :=
  match sctx with
  | none => ()
  | some _ => ()

/-! ### Seekable-format encoding and concrete fixtures -/

/-- Little-endian 32-bit encoding. -/
def enc32 (n : Nat) : List Nat :=
  [n % 256, n / 256 % 256, n / 65536 % 256, n / 16777216 % 256]

/-- One 8-byte seek-table entry: compressed then uncompressed size. -/
def entryBytes (e : Nat × Nat) : List Nat := enc32 e.1 ++ enc32 e.2

/-- A well-formed seekable-format trailer frame (no checksums) for the
given entries: skippable magic, frame size, entries, then the 9-byte
footer (frame count, descriptor 0, seekable magic). -/
def seekTableFrame (entries : List (Nat × Nat)) : List Nat :=
  enc32 0x184D2A5E ++ enc32 (8 * entries.length + 9) ++
  (entries.map entryBytes).flatten ++
  enc32 entries.length ++ [0] ++ enc32 0x8F92EAB1

/-- Running sums of the entries' sizes from `(c, u)` (uint32), ending
in the accumulated-totals sentinel. -/
def sumsFrom (c u : Nat) : List (Nat × Nat) → List JTRecord
  | [] => [⟨c, u⟩]
  | e :: r => ⟨c, u⟩ :: sumsFrom ((c + e.1) % 2 ^ 32) ((u + e.2) % 2 ^ 32) r

/-- The records of the fold prior to the sentinel. -/
def frontSums (c u : Nat) : List (Nat × Nat) → List JTRecord
  | [] => []
  | e :: r => ⟨c, u⟩ :: frontSums ((c + e.1) % 2 ^ 32) ((u + e.2) % 2 ^ 32) r

/-- Final compressed accumulator of the fold. -/
def endC (c u : Nat) : List (Nat × Nat) → Nat
  | [] => c
  | e :: r => endC ((c + e.1) % 2 ^ 32) ((u + e.2) % 2 ^ 32) r

/-- Final uncompressed accumulator of the fold. -/
def endU (c u : Nat) : List (Nat × Nat) → Nat
  | [] => u
  | e :: r => endU ((c + e.1) % 2 ^ 32) ((u + e.2) % 2 ^ 32) r

/-- The bytes a read returns (empty on the error exit). -/
def readBytes (st : Context) (n : Nat) : List Nat :=
  match readCtx st n with
  | ReadRes.ok _ out _ => out
  | ReadRes.rerr _ => []

/-- The count a read returns (0 on the error exit). -/
def readCount (st : Context) (n : Nat) : Nat :=
  match readCtx st n with
  | ReadRes.ok cnt _ _ => cnt
  | ReadRes.rerr _ => 0

/-- The context a read leaves behind. -/
def readState (st : Context) (n : Nat) : Context :=
  match readCtx st n with
  | ReadRes.ok _ _ st2 => st2
  | ReadRes.rerr st2 => st2

/-- The jump table of a created context ([] when creation fails). -/
def jtOfCreate (src : Source) : List JTRecord :=
  match create src with
  | some ctx => ctx.jt
  | none => []

/-- A three-frame source with no seekable trailer (21 zero bytes; three
frames of 7 compressed bytes, each holding two bytes of content). -/
def srcA : Source :=
  ⟨List.replicate 21 0, [⟨7, [65, 66]⟩, ⟨7, [67, 68]⟩, ⟨7, [69, 70]⟩]⟩

/-- The context `ZSTDSeek_create` builds on `srcA`: full linear-scan
jump table with the total sentinel. -/
def ctxA : Context := {
  src := srcA,
  lastFrameCompressedSize := 0,
  currentUncompressedPos := 0,
  currentCompressedPos := 0,
  jt := [⟨0, 0⟩, ⟨7, 2⟩, ⟨14, 4⟩, ⟨21, 6⟩],
  jumpTableFullyInit := true,
  jc := ⟨0, 0, ⟨0, 0⟩⟩,
  tmpOutBuffSize := dStreamOutSize,
  staging := [],
  tmpOutBuffPos := 0,
  mmapFd := -1,
  inBuffOff := 0,
  inputBaseOff := 0,
  inputSize := 0,
  inputPos := 0,
  sessionPos := 0 }

/-- The lazy context `ZSTDSeek_createWithoutJumpTable` builds on
`srcA`: empty table, not fully initialized. -/
def ctxL : Context := {
  src := srcA,
  lastFrameCompressedSize := 0,
  currentUncompressedPos := 0,
  currentCompressedPos := 0,
  jt := [],
  jumpTableFullyInit := false,
  jc := ⟨0, 0, ⟨0, 0⟩⟩,
  tmpOutBuffSize := dStreamOutSize,
  staging := [],
  tmpOutBuffPos := 0,
  mmapFd := -1,
  inBuffOff := 0,
  inputBaseOff := 0,
  inputSize := 0,
  inputPos := 0,
  sessionPos := 0 }

/-- The lazy context after reading 2 bytes and then 1 byte: position 3,
jump table discovered up to uncompressed position 4. -/
def stL2 : Context := readState (readState ctxL 2) 1

/-- A one-frame source with a well-formed seekable trailer for the
single entry (10, 4). -/
def srcT : Source :=
  ⟨List.replicate 10 0 ++ seekTableFrame [(10, 4)], [⟨10, [1, 2, 3, 4]⟩]⟩

/-- The context `ZSTDSeek_createWithoutJumpTable` builds on `srcT`. -/
def ctxT : Context := {
  src := srcT,
  lastFrameCompressedSize := 0,
  currentUncompressedPos := 0,
  currentCompressedPos := 0,
  jt := [],
  jumpTableFullyInit := false,
  jc := ⟨0, 0, ⟨0, 0⟩⟩,
  tmpOutBuffSize := dStreamOutSize,
  staging := [],
  tmpOutBuffPos := 0,
  mmapFd := -1,
  inBuffOff := 0,
  inputBaseOff := 0,
  inputSize := 0,
  inputPos := 0,
  sessionPos := 0 }

/-- A source whose seek table ends with a zero-uncompressed-size entry:
two data frames of compressed sizes 10 and 9, uncompressed sizes 4 and
0, followed by a well-formed trailer for entries (10,4), (9,0). -/
def srcZ : Source :=
  ⟨List.replicate 19 0 ++ seekTableFrame [(10, 4), (9, 0)],
   [⟨10, [1, 2, 3, 4]⟩, ⟨9, []⟩]⟩

/-- A source whose trailer carries the seekable footer magic but has
reserved descriptor bits set (descriptor byte 4): the import is
rejected and the linear scan runs instead. -/
def srcB : Source :=
  ⟨List.replicate 10 0 ++
    (enc32 0x184D2A5E ++ enc32 17 ++ entryBytes (10, 4) ++
     enc32 1 ++ [4] ++ enc32 0x8F92EAB1),
   [⟨10, [1, 2, 3, 4]⟩]⟩

/-- The context `ZSTDSeek_createWithoutJumpTable` builds on `srcB`. -/
def ctxB : Context := {
  src := srcB,
  lastFrameCompressedSize := 0,
  currentUncompressedPos := 0,
  currentCompressedPos := 0,
  jt := [],
  jumpTableFullyInit := false,
  jc := ⟨0, 0, ⟨0, 0⟩⟩,
  tmpOutBuffSize := dStreamOutSize,
  staging := [],
  tmpOutBuffPos := 0,
  mmapFd := -1,
  inBuffOff := 0,
  inputBaseOff := 0,
  inputSize := 0,
  inputPos := 0,
  sessionPos := 0 }

/-- Whether a read returns through the normal exit. -/
def readOk (st : Context) (n : Nat) : Bool :=
  match readCtx st n with
  | ReadRes.ok _ _ _ => true
  | ReadRes.rerr _ => false

/-- `ctxA` with three staged bytes of which the first was delivered. -/
def ctxW : Context := { ctxA with staging := [9, 8, 7], tmpOutBuffPos := 1 }

/-- Strict progress between two jump-table records: both coordinates
increase. -/
def RecLt (a b : JTRecord) : Prop :=
  a.compressedPos < b.compressedPos ∧
  a.uncompressedPos < b.uncompressedPos

instance : DecidableRel RecLt := fun a b => by
  unfold RecLt; infer_instance

/-! ### Basic facts about the frame geometry -/

theorem cStart_cons (f : Frame) (fs : List Frame) (k : Nat) :
    cStart (f :: fs) (k + 1) = f.clen + cStart fs k := by
  simp [cStart, List.take_succ_cons]

theorem frameIdxAt_lt_length {fs : List Frame} {p k : Nat}
    (h : frameIdxAt fs p = some k) : k < fs.length := by
  induction fs generalizing p k with
  | nil => simp [frameIdxAt] at h
  | cons f rest ih =>
      unfold frameIdxAt at h
      by_cases hp : p = 0
      · simp [hp] at h; simp; omega
      · by_cases hlt : p < f.clen
        · simp [hp, hlt] at h
        · simp [hp, hlt] at h
          obtain ⟨j, hj, rfl⟩ := h
          have := ih hj
          simp; omega

theorem cStart_succ {fs : List Frame} {k : Nat} (hk : k < fs.length) :
    cStart fs (k + 1) = cStart fs k + (fs.getD k ⟨0, []⟩).clen := by
  induction fs generalizing k with
  | nil => simp at hk
  | cons f rest ih =>
      cases k with
      | zero => simp [cStart_cons, cStart]
      | succ j =>
          have hj : j < rest.length := by simpa using Nat.lt_of_succ_lt_succ hk
          rw [cStart_cons, cStart_cons, ih hj]
          simp [List.getD_cons_succ]
          omega

theorem frameIdxAt_cStart {fs : List Frame} (hpos : ∀ f ∈ fs, 0 < f.clen)
    {k : Nat} (hk : k < fs.length) : frameIdxAt fs (cStart fs k) = some k := by
  induction fs generalizing k with
  | nil => simp at hk
  | cons f rest ih =>
      cases k with
      | zero => simp [frameIdxAt, cStart]
      | succ j =>
          have hf : 0 < f.clen := hpos f (by simp)
          have hrest : ∀ g ∈ rest, 0 < g.clen := fun g hg => hpos g (by simp [hg])
          have hj : j < rest.length := by simpa using Nat.lt_of_succ_lt_succ hk
          unfold frameIdxAt
          rw [cStart_cons]
          have h0 : f.clen + cStart rest j ≠ 0 := by omega
          have h1 : ¬(f.clen + cStart rest j < f.clen) := by omega
          rw [if_neg h0, if_neg h1]
          have h2 : f.clen + cStart rest j - f.clen = cStart rest j := by omega
          rw [h2, ih hrest hj]
          rfl

theorem frameIdxAt_total {fs : List Frame} (hpos : ∀ f ∈ fs, 0 < f.clen) :
    frameIdxAt fs (cStart fs fs.length) = none := by
  induction fs with
  | nil => rfl
  | cons f rest ih =>
      have hf : 0 < f.clen := hpos f (by simp)
      have hrest : ∀ g ∈ rest, 0 < g.clen := fun g hg => hpos g (by simp [hg])
      unfold frameIdxAt
      have hc : cStart (f :: rest) (rest.length + 1) = f.clen + cStart rest rest.length :=
        cStart_cons f rest rest.length
      simp only [List.length_cons, hc]
      have h0 : f.clen + cStart rest rest.length ≠ 0 := by omega
      have h1 : ¬(f.clen + cStart rest rest.length < f.clen) := by omega
      rw [if_neg h0, if_neg h1]
      have h2 : f.clen + cStart rest rest.length - f.clen = cStart rest rest.length := by
        omega
      rw [h2, ih hrest]
      rfl

theorem frameIdxAt_eq_cStart {fs : List Frame} {p k : Nat}
    (h : frameIdxAt fs p = some k) : p = cStart fs k := by
  induction fs generalizing p k with
  | nil => simp [frameIdxAt] at h
  | cons f rest ih =>
      unfold frameIdxAt at h
      by_cases hp : p = 0
      · simp [hp] at h
        subst hp; rw [← h]; rfl
      · by_cases hlt : p < f.clen
        · simp [hp, hlt] at h
        · simp [hp, hlt] at h
          obtain ⟨j, hj, rfl⟩ := h
          have := ih hj
          rw [cStart_cons]
          omega

theorem frameIdxAt_advance {fs : List Frame} (hpos : ∀ f ∈ fs, 0 < f.clen)
    {p k : Nat} (h : frameIdxAt fs p = some k) :
    frameIdxAt fs (p + (fs.getD k ⟨0, []⟩).clen) =
      if k + 1 < fs.length then some (k + 1) else none := by
  have hk := frameIdxAt_lt_length h
  have hp := frameIdxAt_eq_cStart h
  subst hp
  rw [← cStart_succ hk]
  by_cases hk1 : k + 1 < fs.length
  · rw [if_pos hk1, frameIdxAt_cStart hpos hk1]
  · rw [if_neg hk1]
    have : k + 1 = fs.length := by omega
    rw [this, frameIdxAt_total hpos]

/-! ### Basic facts about the ground-truth stream -/

theorem uStart_succ {fs : List Frame} {k : Nat} (hk : k < fs.length) :
    uStart fs (k + 1) = uStart fs k + (fs.getD k ⟨0, []⟩).content.length := by
  induction fs generalizing k with
  | nil => simp at hk
  | cons f rest ih =>
      cases k with
      | zero => simp [uStart]
      | succ j =>
          have hj : j < rest.length := by simpa using Nat.lt_of_succ_lt_succ hk
          simp only [uStart, List.take_succ_cons, List.map_cons, List.sum_cons,
            List.getD_cons_succ] at *
          rw [ih hj]
          omega

theorem joinFrom_zero (src : Source) : joinFrom src 0 = groundTruth src := rfl

theorem joinFrom_ge (src : Source) {k : Nat} (hk : src.frames.length ≤ k) :
    joinFrom src k = [] := by
  simp [joinFrom, List.drop_eq_nil_of_le hk]

theorem joinFrom_succ (src : Source) {k : Nat} (hk : k < src.frames.length) :
    joinFrom src k = (frameAt src k).content ++ joinFrom src (k + 1) := by
  unfold joinFrom frameAt
  rw [List.drop_eq_getElem_cons hk, List.map_cons, List.flatten_cons]
  congr 1
  simp [List.getD, List.getElem?_eq_getElem hk]

theorem groundTruth_length (src : Source) :
    (groundTruth src).length = totalU src := by
  simp [groundTruth, totalU, uStart, List.length_flatten, List.map_map]
  rfl

theorem groundTruth_drop_uStart (src : Source) {k : Nat}
    (hk : k ≤ src.frames.length) :
    (groundTruth src).drop (uStart src.frames k) = joinFrom src k := by
  induction k with
  | zero => simp [uStart, joinFrom_zero]
  | succ j ih =>
      have hj : j < src.frames.length := by omega
      rw [uStart_succ hj, ← List.drop_drop, ih (by omega), joinFrom_succ src hj]
      simp [frameAt]

theorem uStart_mono {fs : List Frame} {k j : Nat} (hkj : k ≤ j)
    (hj : j ≤ fs.length) : uStart fs k ≤ uStart fs j := by
  induction j with
  | zero =>
      have hz : k = 0 := by omega
      subst hz
      exact le_refl _
  | succ n ih =>
      by_cases hk : k = n + 1
      · simp [hk]
      · have h1 : k ≤ n := by omega
        have h2 : n < fs.length := by omega
        calc uStart fs k ≤ uStart fs n := ih h1 (by omega)
        _ ≤ uStart fs (n+1) := by rw [uStart_succ h2]; omega

theorem uStart_le_totalU (src : Source) {k : Nat}
    (hk : k ≤ src.frames.length) : uStart src.frames k ≤ totalU src :=
  uStart_mono hk (le_refl _)

theorem contentLen_le_totalU (src : Source) {k : Nat}
    (hk : k < src.frames.length) :
    (frameAt src k).content.length ≤ totalU src := by
  have h1 := uStart_succ hk
  have h2 : uStart src.frames (k + 1) ≤ totalU src :=
    uStart_le_totalU src (Nat.succ_le_of_lt hk)
  unfold frameAt
  omega

/-! ### Validity of reachable reader states -/

/-- A record of the jump table is coherent when it pairs the compressed
and uncompressed start offsets of the same frame boundary (`k` may be
`frames.length`: the end-of-stream sentinel). -/
def RecOK (src : Source) (r : JTRecord) : Prop :=
  ∃ k, k ≤ src.frames.length ∧ r.compressedPos = cStart src.frames k ∧
    r.uncompressedPos = uStart src.frames k

/-- The staged bytes not yet delivered to the caller. -/
def pendingOf (st : Context) : List Nat := st.staging.drop st.tmpOutBuffPos

/-- Uncompressed bytes from frames starting at compressed offset `c`
([] when no frame starts there). -/
def joinFromC (src : Source) (c : Nat) : List Nat :=
  match frameIdxAt src.frames c with
  | some k => joinFrom src k
  | none => []

/-- The uncompressed bytes the decoder has yet to produce, read off the
session state: mid-frame, the rest of the bound frame's content plus all
later frames; otherwise everything from the frame at `inBuff`. -/
def restBytes (st : Context) : List Nat :=
  if st.inputPos < st.inputSize then
    match frameIdxAt st.src.frames st.inputBaseOff with
    | some k => (frameAt st.src k).content.drop st.sessionPos ++
        joinFrom st.src (k + 1)
    | none => []
  else joinFromC st.src st.inBuffOff

/-- Structural coherence of the decompression session: either fresh (no
input bound, or the bound frame fully consumed and the session drained)
or mid-frame with the input range bound to the frame at the input base
and `lastFrameCompressedSize` still holding that frame's size. -/
def DecodeOK (st : Context) : Prop :=
  (st.inputPos = st.inputSize ∧ st.sessionPos = 0) ∨
  (st.inputPos < st.inputSize ∧ ∃ k,
    frameIdxAt st.src.frames st.inputBaseOff = some k ∧
    st.inputSize = (frameAt st.src k).clen ∧
    st.lastFrameCompressedSize = (frameAt st.src k).clen ∧
    st.inBuffOff = st.inputBaseOff ∧
    st.sessionPos ≤ (frameAt st.src k).content.length)

/-- A reader state reachable through the API on a decodable source whose
jump table is fully initialized: every frame has a positive compressed
size, the table's records are coherent and end in the total-size
sentinel, and the staging buffer, discard quota and session agree with
the ground-truth stream at the current position. -/
structure GoodSt (st : Context) : Prop where
  frames_pos : ∀ f ∈ st.src.frames, 0 < f.clen
  fullyInit : st.jumpTableFullyInit = true
  jt_rec : ∀ r ∈ st.jt, RecOK st.src r
  jt_last : lastKnownSize st = totalU st.src
  cap_pos : 0 < st.tmpOutBuffSize
  cur_le : st.currentUncompressedPos ≤ totalU st.src
  cursor_le : st.tmpOutBuffPos ≤ st.staging.length
  quota_pending : 0 < st.jc.uncompressedOffset →
    st.tmpOutBuffPos = st.staging.length
  quota_le : st.jc.uncompressedOffset ≤
    (pendingOf st).length + (restBytes st).length
  decode : DecodeOK st
  stream : (pendingOf st ++ restBytes st).drop st.jc.uncompressedOffset =
    (groundTruth st.src).drop st.currentUncompressedPos

theorem recOK_zero (src : Source) : RecOK src ⟨0, 0⟩ :=
  ⟨0, Nat.zero_le _, rfl, rfl⟩

/-- A coherent record maps its compressed offset to the tail of the
ground truth at its uncompressed offset. -/
theorem recOK_joinFromC {src : Source} (hpos : ∀ f ∈ src.frames, 0 < f.clen)
    {r : JTRecord} (h : RecOK src r) :
    joinFromC src r.compressedPos =
      (groundTruth src).drop r.uncompressedPos := by
  obtain ⟨k, hk, hc, hu⟩ := h
  rw [hc, hu, groundTruth_drop_uStart src hk]
  unfold joinFromC
  by_cases hlt : k < src.frames.length
  · rw [frameIdxAt_cStart hpos hlt]
  · have hke : k = src.frames.length := by omega
    subst hke
    rw [frameIdxAt_total hpos, joinFrom_ge src (le_refl _)]

theorem recOK_uStart_le {src : Source} {r : JTRecord} (h : RecOK src r) :
    r.uncompressedPos ≤ totalU src := by
  obtain ⟨k, hk, _, hu⟩ := h
  rw [hu]
  exact uStart_le_totalU src hk

/-! ### The jump-coordinate search -/

/-- Whatever the binary search of `ZSTDSeek_getJumpCoordinate` returns,
it is either the canonical zero coordinate or built from a record of the
table whose uncompressed position does not exceed the target. -/
theorem binSearchLoop_shape (records : List JTRecord) (target : Nat) :
    ∀ fuel l r, binSearchLoop records target l r fuel = ⟨0, target, ⟨0, 0⟩⟩ ∨
      ∃ rec, rec ∈ records ∧ rec.uncompressedPos ≤ target ∧
        binSearchLoop records target l r fuel =
          ⟨rec.compressedPos, target - rec.uncompressedPos, rec⟩ := by
  intro fuel
  induction fuel with
  | zero => intro l r; left; rfl
  | succ n ih =>
      intro l r
      unfold binSearchLoop
      by_cases hlr : l ≤ r
      · rw [if_pos hlr]
        set m := (l + r) % 2 ^ 32 / 2 with hm
        by_cases hml : m < records.length
        · have hget : records.getD m ⟨0, 0⟩ ∈ records := by
            show (records.get? m).getD _ ∈ records
            rw [List.get?_eq_getElem?, List.getElem?_eq_getElem hml]
            simp
          by_cases hgt : (records.getD m ⟨0, 0⟩).uncompressedPos > target
          · rw [if_pos hgt]; exact ih l _
          · rw [if_neg hgt]
            by_cases hnext : m + 1 < records.length ∧
                (records.getD (m+1) ⟨0,0⟩).uncompressedPos ≤ target
            · rw [if_pos hnext]; exact ih (m+1) r
            · rw [if_neg hnext]
              right
              exact ⟨records.getD m ⟨0, 0⟩, hget, by omega, rfl⟩
        · have hd : records.getD m ⟨0, 0⟩ = ⟨0, 0⟩ := by
            show (records.get? m).getD _ = _
            rw [List.get?_eq_getElem?, List.getElem?_eq_none (by omega)]
            rfl
          rw [hd]
          have hgt : ¬((⟨0, 0⟩ : JTRecord).uncompressedPos > target) := by
            simp [Nat.not_lt]
          rw [if_neg hgt]
          have hnext : ¬(m + 1 < records.length ∧
              (records.getD (m+1) ⟨0,0⟩).uncompressedPos ≤ target) := by
            intro hc
            omega
          rw [if_neg hnext]
          left
          rfl
      · rw [if_neg hlr]; left; rfl

/-- The lazy-extension branch only rewrites the jump table and its flag:
every other field of the context survives `initJumpTableUpUntilPos`. -/
theorem initUpUntil_only_jt (st : Context) (up : Nat) :
    ∃ jt1 b1, (initJumpTableUpUntilPos st up).2 =
      { st with jt := jt1, jumpTableFullyInit := b1 } := by
  unfold initJumpTableUpUntilPos linearScanPart
  by_cases h : seekMagicOK st.src ∧ reservedOK st.src ∧ skipMagicOK st.src ∧
      sizeMatchOK st.src
  · rw [if_pos h]
    exact ⟨_, _, rfl⟩
  · rw [if_neg h]
    by_cases h2 : (scanLoop (match frameIdxAt st.src.frames
        (st.jt.getLast?.getD ⟨0,0⟩).compressedPos with
      | some k => st.src.frames.drop k
      | none => []) (st.jt.getLast?.getD ⟨0,0⟩).compressedPos
      (st.jt.getLast?.getD ⟨0,0⟩).uncompressedPos st.jt up).1 = []
    · simp only [h2, if_pos]
      exact ⟨_, _, rfl⟩
    · simp only [h2, if_neg, ite_false]
      by_cases h3 : ((scanLoop (match frameIdxAt st.src.frames
          (st.jt.getLast?.getD ⟨0,0⟩).compressedPos with
        | some k => st.src.frames.drop k
        | none => []) (st.jt.getLast?.getD ⟨0,0⟩).compressedPos
        (st.jt.getLast?.getD ⟨0,0⟩).uncompressedPos st.jt
        up).1.getLast?.getD ⟨0,0⟩).uncompressedPos <
        (scanLoop (match frameIdxAt st.src.frames
          (st.jt.getLast?.getD ⟨0,0⟩).compressedPos with
        | some k => st.src.frames.drop k
        | none => []) (st.jt.getLast?.getD ⟨0,0⟩).compressedPos
        (st.jt.getLast?.getD ⟨0,0⟩).uncompressedPos st.jt up).2.2.2
      · rw [if_pos h3]
        exact ⟨_, _, rfl⟩
      · rw [if_neg h3]
        exact ⟨_, _, rfl⟩

/-- On a fully initialized table `getJumpCoordinate` does not touch the
context. -/
theorem getJC_state {st : Context} (h : st.jumpTableFullyInit = true)
    (t : Nat) : (getJumpCoordinate st t).2 = st := by
  unfold getJumpCoordinate
  simp [h]

/-- On a fully initialized, coherent table, the coordinate returned for
`t` points at a frame boundary at or before `t` in the uncompressed
stream. -/
theorem getJC_coord {st : Context} (hfi : st.jumpTableFullyInit = true)
    (hrec : ∀ r ∈ st.jt, RecOK st.src r) (t : Nat) :
    ∃ k, k ≤ st.src.frames.length ∧ uStart st.src.frames k ≤ t ∧
      (getJumpCoordinate st t).1.compressedOffset = cStart st.src.frames k ∧
      (getJumpCoordinate st t).1.uncompressedOffset =
        t - uStart st.src.frames k := by
  have hs : (getJumpCoordinate st t).1 =
      binSearchLoop st.jt t 0 ((st.jt.length + 2 ^ 32 - 1) % 2 ^ 32)
        (st.jt.length + 64) := by
    unfold getJumpCoordinate
    simp [hfi]
  rcases binSearchLoop_shape st.jt t (st.jt.length + 64) 0
      ((st.jt.length + 2 ^ 32 - 1) % 2 ^ 32) with hz | ⟨rec, hmem, hle, heq⟩
  · refine ⟨0, Nat.zero_le _, Nat.zero_le _, ?_, ?_⟩
    · rw [hs, hz]; rfl
    · rw [hs, hz]; rfl
  · obtain ⟨k, hk, hc, hu⟩ := hrec rec hmem
    refine ⟨k, hk, ?_, ?_, ?_⟩
    · rw [← hu]; exact hle
    · rw [hs, heq, hc]
    · rw [hs, heq, hu]

/-! ### The discard-then-copy drain step -/

/-- Drained staging state: no pending discard quota, and the undelivered
staged bytes followed by `rest` are exactly the ground truth from the
current position. -/
def okA (st : Context) (rest : List Nat) : Prop :=
  st.jc.uncompressedOffset = 0 ∧ st.tmpOutBuffPos ≤ st.staging.length ∧
  pendingOf st ++ rest = (groundTruth st.src).drop st.currentUncompressedPos

/-- Discarding staging state: a positive quota remains, and `rest` minus
the quota is the ground truth from the current position (the staging
buffer's bytes are dead: they have been accounted against the quota and
will be overwritten before any use). -/
def okB (st : Context) (rest : List Nat) : Prop :=
  0 < st.jc.uncompressedOffset ∧ st.jc.uncompressedOffset ≤ rest.length ∧
  rest.drop st.jc.uncompressedOffset =
    (groundTruth st.src).drop st.currentUncompressedPos

theorem drainQuota_eq_B (st : Context) (toRead : Nat) (acc : List Nat)
    (hb : st.jc.uncompressedOffset > st.staging.length) :
    drainQuota st toRead acc =
      ({ st with jc := { st.jc with uncompressedOffset :=
          st.jc.uncompressedOffset - st.staging.length } }, toRead, acc) := by
  simp only [drainQuota, if_pos hb]

theorem drainQuota_eq_A (st : Context) (toRead : Nat) (acc : List Nat)
    (hb : ¬ st.jc.uncompressedOffset > st.staging.length) :
    drainQuota st toRead acc =
      ({ st with
          currentUncompressedPos := st.currentUncompressedPos +
            min (st.staging.length - st.tmpOutBuffPos -
              st.jc.uncompressedOffset) toRead,
          tmpOutBuffPos := st.tmpOutBuffPos +
            min (st.staging.length - st.tmpOutBuffPos -
              st.jc.uncompressedOffset) toRead + st.jc.uncompressedOffset,
          jc := { st.jc with uncompressedOffset := 0 } },
       toRead - min (st.staging.length - st.tmpOutBuffPos -
          st.jc.uncompressedOffset) toRead,
       acc ++ sliceL st.staging (st.tmpOutBuffPos + st.jc.uncompressedOffset)
         (min (st.staging.length - st.tmpOutBuffPos -
            st.jc.uncompressedOffset) toRead)) := by
  simp only [drainQuota, if_neg hb]


/-- Correctness of the shared drain step: it delivers the next slice of
the ground truth (never more than requested), consumes quota before
bytes, and leaves either a drained (`okA`) or a discarding (`okB`)
state. -/
theorem drainQuota_spec (st : Context) (toRead : Nat) (acc : List Nat)
    (rest : List Nat)
    (hcur : st.tmpOutBuffPos ≤ st.staging.length)
    (hqc : 0 < st.jc.uncompressedOffset → st.tmpOutBuffPos = 0)
    (hstr : (pendingOf st ++ rest).drop st.jc.uncompressedOffset
            = (groundTruth st.src).drop st.currentUncompressedPos)
    (hle : st.jc.uncompressedOffset ≤ (pendingOf st).length + rest.length) :
    ∃ st2 toRead2,
      drainQuota st toRead acc = (st2, toRead2,
        acc ++ sliceL (groundTruth st.src) st.currentUncompressedPos
          (toRead - toRead2)) ∧
      toRead2 ≤ toRead ∧
      st2.currentUncompressedPos =
        st.currentUncompressedPos + (toRead - toRead2) ∧
      st2.src = st.src ∧ st2.jt = st.jt ∧
      st2.jumpTableFullyInit = st.jumpTableFullyInit ∧
      st2.tmpOutBuffSize = st.tmpOutBuffSize ∧
      st2.staging = st.staging ∧
      st2.inBuffOff = st.inBuffOff ∧ st2.inputBaseOff = st.inputBaseOff ∧
      st2.inputSize = st.inputSize ∧ st2.inputPos = st.inputPos ∧
      st2.sessionPos = st.sessionPos ∧
      st2.lastFrameCompressedSize = st.lastFrameCompressedSize ∧
      st2.jc.compressedOffset = st.jc.compressedOffset ∧
      st2.jc.jtr = st.jc.jtr ∧
      st2.currentCompressedPos = st.currentCompressedPos ∧
      st2.mmapFd = st.mmapFd ∧
      ((okA st2 rest ∧ (0 < toRead2 → pendingOf st2 = [])) ∨
       (okB st2 rest ∧ toRead2 = toRead)) := by
  by_cases hb : st.jc.uncompressedOffset > st.staging.length
  · have hq0 : 0 < st.jc.uncompressedOffset := by
      have := st.staging.length.zero_le
      omega
    have hc0 : st.tmpOutBuffPos = 0 := hqc hq0
    have hpend : pendingOf st = st.staging := by
      unfold pendingOf
      rw [hc0]
      rfl
    refine ⟨{ st with jc := { st.jc with uncompressedOffset :=
        st.jc.uncompressedOffset - st.staging.length } }, toRead,
      ?_, le_refl _, by simp, rfl, rfl, rfl, rfl, rfl, rfl, rfl, rfl, rfl,
      rfl, rfl, rfl, rfl, rfl, rfl, Or.inr ⟨⟨?_, ?_, ?_⟩, rfl⟩⟩
    · rw [drainQuota_eq_B st toRead acc hb]
      have hz : toRead - toRead = 0 := by omega
      rw [hz]
      simp [sliceL]
    · show 0 < st.jc.uncompressedOffset - st.staging.length
      omega
    · show st.jc.uncompressedOffset - st.staging.length ≤ rest.length
      rw [hpend] at hle
      omega
    · show rest.drop (st.jc.uncompressedOffset - st.staging.length) =
        (groundTruth st.src).drop st.currentUncompressedPos
      rw [← hstr, hpend, List.drop_append_eq_append_drop,
        List.drop_eq_nil_of_le
          (show st.staging.length ≤ st.jc.uncompressedOffset by omega),
        List.nil_append]
  · have hq_le_staging : st.jc.uncompressedOffset ≤ st.staging.length := by
      omega
    have hq_le_pending : st.jc.uncompressedOffset ≤ (pendingOf st).length := by
      by_cases hq : 0 < st.jc.uncompressedOffset
      · have hc0 := hqc hq
        unfold pendingOf
        rw [hc0]
        simp
        omega
      · omega
    have hplen : (pendingOf st).length =
        st.staging.length - st.tmpOutBuffPos := by
      unfold pendingOf
      simp
    have hdecomp : (pendingOf st).drop st.jc.uncompressedOffset ++ rest =
        (groundTruth st.src).drop st.currentUncompressedPos := by
      rw [← hstr, List.drop_append_eq_append_drop,
        Nat.sub_eq_zero_of_le hq_le_pending, List.drop_zero]
    have hdq : (pendingOf st).drop st.jc.uncompressedOffset =
        st.staging.drop (st.tmpOutBuffPos + st.jc.uncompressedOffset) := by
      unfold pendingOf
      rw [List.drop_drop]
    have hdqlen : ((pendingOf st).drop st.jc.uncompressedOffset).length =
        st.staging.length - st.tmpOutBuffPos - st.jc.uncompressedOffset := by
      simp [hplen]
    set M := st.staging.length - st.tmpOutBuffPos - st.jc.uncompressedOffset
      with hMdef
    set toCopy := min M toRead with htc
    have htc_le : toCopy ≤ toRead := Nat.min_le_right _ _
    have htcM : toCopy ≤ M := Nat.min_le_left _ _
    have hslice : sliceL st.staging
        (st.tmpOutBuffPos + st.jc.uncompressedOffset) toCopy =
        sliceL (groundTruth st.src) st.currentUncompressedPos toCopy := by
      unfold sliceL
      rw [← hdq, ← hdecomp, List.take_append_eq_append_take,
        Nat.sub_eq_zero_of_le (by rw [hdqlen]; omega), List.take_zero,
        List.append_nil]
    refine ⟨{ st with
        currentUncompressedPos := st.currentUncompressedPos + toCopy,
        tmpOutBuffPos := st.tmpOutBuffPos + toCopy + st.jc.uncompressedOffset,
        jc := { st.jc with uncompressedOffset := 0 } },
      toRead - toCopy,
      ?_, by omega, by show st.currentUncompressedPos + toCopy = _; omega,
      rfl, rfl, rfl, rfl, rfl, rfl, rfl, rfl, rfl, rfl, rfl, rfl, rfl, rfl,
      rfl, Or.inl ⟨⟨rfl, ?_, ?_⟩, ?_⟩⟩
    · rw [drainQuota_eq_A st toRead acc hb]
      have hz : toRead - (toRead - toCopy) = toCopy := by omega
      rw [hz, hslice]
    · show st.tmpOutBuffPos + toCopy + st.jc.uncompressedOffset ≤
        st.staging.length
      omega
    · show st.staging.drop
          (st.tmpOutBuffPos + toCopy + st.jc.uncompressedOffset) ++ rest =
        (groundTruth st.src).drop (st.currentUncompressedPos + toCopy)
      have h1 : st.staging.drop
          (st.tmpOutBuffPos + toCopy + st.jc.uncompressedOffset) =
          ((pendingOf st).drop st.jc.uncompressedOffset).drop toCopy := by
        rw [hdq, List.drop_drop]
        congr 1
        omega
      rw [h1,
        show (groundTruth st.src).drop (st.currentUncompressedPos + toCopy) =
          ((groundTruth st.src).drop st.currentUncompressedPos).drop toCopy
          from (List.drop_drop _ _ _).symm,
        ← hdecomp, List.drop_append_eq_append_drop,
        Nat.sub_eq_zero_of_le (by rw [hdqlen]; omega), List.drop_zero]
    · intro hpos
      have htcM2 : toCopy = M := by omega
      show st.staging.drop
        (st.tmpOutBuffPos + toCopy + st.jc.uncompressedOffset) = []
      apply List.drop_eq_nil_of_le
      omega


/-! ### The inner decompression loop -/

theorem sliceL_concat (l : List Nat) (a m n : Nat) :
    sliceL l a m ++ sliceL l (a + m) n = sliceL l a (m + n) := by
  unfold sliceL
  rw [List.take_add]
  congr 1
  rw [← List.drop_drop]

/-- Structural facts tying the session to the frame `k` bound to the
input range. -/
def MidFrame (st : Context) (k : Nat) : Prop :=
  frameIdxAt st.src.frames st.inputBaseOff = some k ∧
  st.inputSize = (frameAt st.src k).clen ∧
  st.lastFrameCompressedSize = (frameAt st.src k).clen ∧
  st.inBuffOff = st.inputBaseOff ∧
  st.sessionPos ≤ (frameAt st.src k).content.length ∧
  st.inputPos ≤ st.inputSize ∧
  (st.inputPos = st.inputSize → st.sessionPos = 0)

/-- The bytes still to come while the inner loop works on frame `k`:
the rest of the frame's content mid-frame, or (the frame completed but
`inBuff` not yet advanced) the frames after it. -/
def innerRest (st : Context) (k : Nat) : List Nat :=
  if st.inputPos < st.inputSize then
    (frameAt st.src k).content.drop st.sessionPos ++ joinFrom st.src (k + 1)
  else joinFrom st.src (k + 1)

/-- Invariant of the inner loop. -/
def InnerInv (st : Context) (toRead : Nat) (k : Nat) : Prop :=
  MidFrame st k ∧
  ((okA st (innerRest st k) ∧ (0 < toRead → pendingOf st = [])) ∨
   okB st (innerRest st k))

theorem decompressStep_eq {src : Source} {ib isz ip sess cap k : Nat}
    (hk : frameIdxAt src.frames ib = some k) :
    decompressStep src ib isz ip sess cap =
      (if sess + min cap ((frameAt src k).content.length - sess) ≥
          (frameAt src k).content.length
       then some (isz, sliceL (frameAt src k).content sess
          (min cap ((frameAt src k).content.length - sess)), 0)
       else some (ip, sliceL (frameAt src k).content sess
          (min cap ((frameAt src k).content.length - sess)),
          sess + min cap ((frameAt src k).content.length - sess))) := by
  simp only [decompressStep, hk]

theorem innerLoop_ok : ∀ (fuel : Nat) (st : Context) (toRead : Nat)
    (acc : List Nat) (k : Nat),
    InnerInv st toRead k →
    0 < st.tmpOutBuffSize →
    0 < toRead →
    (if st.inputPos < st.inputSize then
      (frameAt st.src k).content.length - st.sessionPos + 2 else 1) ≤ fuel →
    ∃ st2 toRead2,
      innerLoop fuel st toRead acc = Sum.inl (st2, toRead2,
        acc ++ sliceL (groundTruth st.src) st.currentUncompressedPos
          (toRead - toRead2)) ∧
      toRead2 ≤ toRead ∧
      st2.currentUncompressedPos =
        st.currentUncompressedPos + (toRead - toRead2) ∧
      MidFrame st2 k ∧
      ((okA st2 (innerRest st2 k) ∧ (0 < toRead2 → pendingOf st2 = [])) ∨
       (okB st2 (innerRest st2 k) ∧ 0 < toRead2)) ∧
      (0 < toRead2 → st2.inputPos = st2.inputSize) ∧
      st2.src = st.src ∧ st2.jt = st.jt ∧
      st2.jumpTableFullyInit = st.jumpTableFullyInit ∧
      st2.tmpOutBuffSize = st.tmpOutBuffSize ∧ st2.mmapFd = st.mmapFd ∧
      st2.jc.compressedOffset = st.jc.compressedOffset ∧
      st2.jc.jtr = st.jc.jtr ∧
      st2.inBuffOff = st.inBuffOff ∧ st2.inputBaseOff = st.inputBaseOff ∧
      st2.inputSize = st.inputSize ∧
      st2.lastFrameCompressedSize = st.lastFrameCompressedSize := by
  intro fuel
  induction fuel with
  | zero =>
      intro st toRead acc k hinv hcap htr hfuel
      by_cases hio : st.inputPos < st.inputSize <;> simp [hio] at hfuel
  | succ n ih =>
      intro st toRead acc k hinv hcap htr hfuel
      obtain ⟨hmf, hAB⟩ := hinv
      obtain ⟨hk, hsz, hlf, hib, hsess, hip_le, hfresh⟩ := hmf
      by_cases hio : st.inputPos < st.inputSize
      · -- one decompression iteration
        have hds := @decompressStep_eq st.src st.inputBaseOff st.inputSize
          st.inputPos st.sessionPos st.tmpOutBuffSize k hk
        rw [if_pos hio] at hfuel
        -- the produced chunk
        set C := (frameAt st.src k).content with hC
        set produce := min st.tmpOutBuffSize (C.length - st.sessionPos)
          with hproduce
        have hprod_le : produce ≤ C.length - st.sessionPos :=
          Nat.min_le_right _ _
        by_cases hcomp : st.sessionPos + produce ≥ C.length
        · -- the frame completes on this call
          have hprod_eq : produce = C.length - st.sessionPos := by omega
          have hchunk_all : sliceL C st.sessionPos produce = C.drop st.sessionPos := by
            unfold sliceL
            rw [hprod_eq]
            apply List.take_of_length_le
            simp
          rw [if_pos hcomp] at hds
          -- the state after the decompress call
          set st1 : Context := { st with
            staging := sliceL C st.sessionPos produce,
            tmpOutBuffPos := 0,
            inputPos := st.inputSize, sessionPos := 0,
            currentCompressedPos := st.currentCompressedPos + st.inputSize }
            with hst1
          set newRest := joinFrom st.src (k + 1) with hnewRest
          have hjoin : st1.staging ++ newRest = innerRest st k := by
            show sliceL C st.sessionPos produce ++ newRest = innerRest st k
            rw [hchunk_all]
            unfold innerRest
            rw [if_pos hio]
          have hpend1 : pendingOf st1 = st1.staging := by
            unfold pendingOf
            rfl
          have hstr1 : (pendingOf st1 ++ newRest).drop st1.jc.uncompressedOffset
              = (groundTruth st1.src).drop st1.currentUncompressedPos := by
            rw [hpend1, hjoin]
            rcases hAB with ⟨⟨hq0, _, hpr⟩, hpe⟩ | ⟨hqpos, hqle, hdr⟩
            · have hpe2 : pendingOf st = [] := hpe htr
              rw [hpe2] at hpr
              simp at hpr
              show (innerRest st k).drop st.jc.uncompressedOffset = _
              rw [hq0, List.drop_zero, hpr]
            · exact hdr
          have hle1 : st1.jc.uncompressedOffset ≤
              (pendingOf st1).length + newRest.length := by
            rcases hAB with ⟨⟨hq0, _, _⟩, _⟩ | ⟨hqpos, hqle, _⟩
            · show st.jc.uncompressedOffset ≤ _
              omega
            · have : (innerRest st k).length =
                  (st1.staging ++ newRest).length := by rw [hjoin]
              rw [hpend1]
              simp only [List.length_append] at this ⊢
              omega
          obtain ⟨st2, toRead2, hdq, hle2, hcur2, hsrc2, hjt2, hfi2, hcap2,
            hstag2, hibo2, hiba2, hisz2, hipo2, hsess2, hlfcs2, hjcc2, hjtr2,
            hccp2, hmm2, hABout⟩ :=
            drainQuota_spec st1 toRead acc newRest (Nat.zero_le _)
              (fun _ => rfl) hstr1 hle1
          -- reduce the loop body
          have hred : innerLoop (n + 1) st toRead acc =
              (if toRead2 = 0 then Sum.inl (st2, 0, acc ++
                sliceL (groundTruth st.src) st.currentUncompressedPos
                  (toRead - toRead2))
               else innerLoop n st2 toRead2 (acc ++
                sliceL (groundTruth st.src) st.currentUncompressedPos
                  (toRead - toRead2))) := by
            simp only [innerLoop, if_pos hio, hds]
            rw [show st.currentUncompressedPos = st1.currentUncompressedPos
              from rfl, show st.src = st1.src from rfl]
            rw [← hst1, hdq]
          rw [hred]
          have hst1src : st1.src = st.src := rfl
          have hst1cur : st1.currentUncompressedPos =
            st.currentUncompressedPos := rfl
          have hinner2 : innerRest st2 k = newRest := by
            unfold innerRest
            have hnlt : ¬ st2.inputPos < st2.inputSize := by
              rw [hipo2, hisz2]
              show ¬ st.inputSize < st.inputSize
              exact lt_irrefl _
            rw [if_neg hnlt, hsrc2, hst1src]
          have hmf2 : MidFrame st2 k := by
            refine ⟨?_, ?_, ?_, ?_, ?_, ?_, ?_⟩
            · rw [hsrc2, hiba2, hst1src]
              exact hk
            · rw [hisz2, hsrc2, hst1src]
              exact hsz
            · rw [hlfcs2, hsrc2, hst1src]
              exact hlf
            · rw [hibo2, hiba2]
              show st.inBuffOff = st.inputBaseOff
              exact hib
            · rw [hsess2]
              show (0 : Nat) ≤ _
              exact Nat.zero_le _
            · rw [hipo2, hisz2]
            · intro _
              rw [hsess2]
          by_cases hz : toRead2 = 0
          · rw [if_pos hz]
            subst hz
            refine ⟨st2, 0, rfl, Nat.zero_le _, ?_, hmf2, ?_, ?_,
              by rw [hsrc2], by rw [hjt2], by rw [hfi2], by rw [hcap2],
              by rw [hmm2], by rw [hjcc2], by rw [hjtr2],
              by rw [hibo2], by rw [hiba2], by rw [hisz2],
              by rw [hlfcs2]⟩
            · rw [hcur2, hst1cur]
            · rcases hABout with ⟨hokA, hpe⟩ | ⟨hokB, htre⟩
              · left
                rw [hinner2]
                exact ⟨hokA, hpe⟩
              · exfalso
                omega
            · intro hc
              exact absurd hc (by omega)
          · rw [if_neg hz]
            have htr2 : 0 < toRead2 := by omega
            have hAB2 : (okA st2 (innerRest st2 k) ∧
                (0 < toRead2 → pendingOf st2 = [])) ∨
                okB st2 (innerRest st2 k) := by
              rcases hABout with ⟨hokA, hpe⟩ | ⟨hokB, _⟩
              · left
                rw [hinner2]
                exact ⟨hokA, hpe⟩
              · right
                rw [hinner2]
                exact hokB
            have hcap2p : 0 < st2.tmpOutBuffSize := by
              rw [hcap2]
              exact hcap
            have hfn : (if st2.inputPos < st2.inputSize then
                (frameAt st2.src k).content.length - st2.sessionPos + 2
                else 1) ≤ n := by
              have hnlt : ¬ st2.inputPos < st2.inputSize := by
                rw [hipo2, hisz2]
                show ¬ st.inputSize < st.inputSize
                exact lt_irrefl _
              rw [if_neg hnlt]
              omega
            obtain ⟨st3, toRead3, heq3, hle3, hcur3, hmf3, hAB3, hiz3, hsrc3,
              hjt3, hfi3, hcap3, hmm3, hjcc3, hjtr3, hibo3, hiba3, hisz3,
              hlfcs3⟩ := ih st2 toRead2 _ k ⟨hmf2, hAB2⟩ hcap2p htr2 hfn
            refine ⟨st3, toRead3, ?_, by omega, ?_, hmf3, hAB3, hiz3,
              by rw [hsrc3, hsrc2], by rw [hjt3, hjt2],
              by rw [hfi3, hfi2], by rw [hcap3, hcap2],
              by rw [hmm3, hmm2], by rw [hjcc3, hjcc2],
              by rw [hjtr3, hjtr2],
              by rw [hibo3, hibo2], by rw [hiba3, hiba2],
              by rw [hisz3, hisz2],
              by rw [hlfcs3, hlfcs2]⟩
            · rw [heq3]
              congr 1
              rw [hsrc2, hst1src, hcur2, hst1cur]
              rw [List.append_assoc, sliceL_concat,
                show toRead - toRead2 + (toRead2 - toRead3) =
                  toRead - toRead3 from by omega]
            · have e1 : st3.currentUncompressedPos =
                  st2.currentUncompressedPos + (toRead2 - toRead3) := hcur3
              have e2 : st2.currentUncompressedPos =
                  st1.currentUncompressedPos + (toRead - toRead2) := hcur2
              have e3 : st1.currentUncompressedPos =
                  st.currentUncompressedPos := hst1cur
              omega
        · -- the frame does not complete: output buffer filled mid-frame
          rw [if_neg hcomp] at hds
          set st1 : Context := { st with
            staging := sliceL C st.sessionPos produce,
            tmpOutBuffPos := 0,
            inputPos := st.inputPos, sessionPos := st.sessionPos + produce,
            currentCompressedPos := st.currentCompressedPos + st.inputPos }
            with hst1
          set newRest := C.drop (st.sessionPos + produce) ++
            joinFrom st.src (k + 1) with hnewRest
          have hjoin : st1.staging ++ newRest = innerRest st k := by
            show sliceL C st.sessionPos produce ++
              (C.drop (st.sessionPos + produce) ++ joinFrom st.src (k + 1)) =
              innerRest st k
            unfold innerRest
            rw [if_pos hio]
            rw [show C.drop (st.sessionPos + produce) =
              (C.drop st.sessionPos).drop produce from
              (List.drop_drop produce st.sessionPos C).symm]
            rw [← List.append_assoc]
            unfold sliceL
            rw [List.take_append_drop]
          have hpend1 : pendingOf st1 = st1.staging := by
            unfold pendingOf
            rfl
          have hstr1 : (pendingOf st1 ++ newRest).drop st1.jc.uncompressedOffset
              = (groundTruth st1.src).drop st1.currentUncompressedPos := by
            rw [hpend1]
            show (st1.staging ++ newRest).drop st.jc.uncompressedOffset =
              (groundTruth st.src).drop st.currentUncompressedPos
            rw [hjoin]
            rcases hAB with ⟨⟨hq0, _, hpr⟩, hpe⟩ | ⟨hqpos, hqle, hdr⟩
            · have hpe2 : pendingOf st = [] := hpe htr
              rw [hpe2] at hpr
              simp at hpr
              rw [hq0, List.drop_zero, hpr]
            · exact hdr
          have hle1 : st1.jc.uncompressedOffset ≤
              (pendingOf st1).length + newRest.length := by
            rcases hAB with ⟨⟨hq0, _, _⟩, _⟩ | ⟨hqpos, hqle, _⟩
            · show st.jc.uncompressedOffset ≤ _
              omega
            · have hlen : (innerRest st k).length =
                  (st1.staging ++ newRest).length := by rw [hjoin]
              rw [hpend1]
              simp only [List.length_append] at hlen ⊢
              show st.jc.uncompressedOffset ≤ _
              omega
          obtain ⟨st2, toRead2, hdq, hle2, hcur2, hsrc2, hjt2, hfi2, hcap2,
            hstag2, hibo2, hiba2, hisz2, hipo2, hsess2, hlfcs2, hjcc2, hjtr2,
            hccp2, hmm2, hABout⟩ :=
            drainQuota_spec st1 toRead acc newRest (Nat.zero_le _)
              (fun _ => rfl) hstr1 hle1
          have hred : innerLoop (n + 1) st toRead acc =
              (if toRead2 = 0 then Sum.inl (st2, 0, acc ++
                sliceL (groundTruth st.src) st.currentUncompressedPos
                  (toRead - toRead2))
               else innerLoop n st2 toRead2 (acc ++
                sliceL (groundTruth st.src) st.currentUncompressedPos
                  (toRead - toRead2))) := by
            simp only [innerLoop, if_pos hio, hds]
            rw [show st.currentUncompressedPos = st1.currentUncompressedPos
              from rfl, show st.src = st1.src from rfl]
            rw [← hst1, hdq]
          rw [hred]
          have hst1src : st1.src = st.src := rfl
          have hst1cur : st1.currentUncompressedPos =
            st.currentUncompressedPos := rfl
          have hsess_le2 : st.sessionPos + produce ≤ C.length := by omega
          have hlt2 : st2.inputPos < st2.inputSize := by
            rw [hipo2, hisz2]
            exact hio
          have hinner2 : innerRest st2 k = newRest := by
            unfold innerRest
            rw [if_pos hlt2, hsrc2, hst1src, hsess2]
          have hmf2 : MidFrame st2 k := by
            refine ⟨?_, ?_, ?_, ?_, ?_, ?_, ?_⟩
            · rw [hsrc2, hiba2, hst1src]
              exact hk
            · rw [hisz2, hsrc2, hst1src]
              exact hsz
            · rw [hlfcs2, hsrc2, hst1src]
              exact hlf
            · rw [hibo2, hiba2]
              show st.inBuffOff = st.inputBaseOff
              exact hib
            · rw [hsess2, hsrc2, hst1src]
              exact hsess_le2
            · omega
            · intro h
              omega
          by_cases hz : toRead2 = 0
          · rw [if_pos hz]
            subst hz
            refine ⟨st2, 0, rfl, Nat.zero_le _, ?_, hmf2, ?_, ?_,
              by rw [hsrc2], by rw [hjt2], by rw [hfi2], by rw [hcap2],
              by rw [hmm2], by rw [hjcc2], by rw [hjtr2],
              by rw [hibo2], by rw [hiba2], by rw [hisz2],
              by rw [hlfcs2]⟩
            · rw [hcur2, hst1cur]
            · rcases hABout with ⟨hokA, hpe⟩ | ⟨hokB, htre⟩
              · left
                rw [hinner2]
                exact ⟨hokA, hpe⟩
              · exfalso
                omega
            · intro hc
              exact absurd hc (by omega)
          · rw [if_neg hz]
            have htr2 : 0 < toRead2 := by omega
            have hAB2 : (okA st2 (innerRest st2 k) ∧
                (0 < toRead2 → pendingOf st2 = [])) ∨
                okB st2 (innerRest st2 k) := by
              rcases hABout with ⟨hokA, hpe⟩ | ⟨hokB, _⟩
              · left
                rw [hinner2]
                exact ⟨hokA, hpe⟩
              · right
                rw [hinner2]
                exact hokB
            have hcap2p : 0 < st2.tmpOutBuffSize := by
              rw [hcap2]
              exact hcap
            have hprodcap : produce = st.tmpOutBuffSize := by
              rcases min_choice st.tmpOutBuffSize
                (C.length - st.sessionPos) with hmc | hmc
              · rw [hproduce, hmc]
              · exfalso
                rw [hproduce, hmc] at hcomp
                omega
            have hfn : (if st2.inputPos < st2.inputSize then
                (frameAt st2.src k).content.length - st2.sessionPos + 2
                else 1) ≤ n := by
              rw [if_pos hlt2, hsrc2, hst1src, hsess2]
              show C.length - st1.sessionPos + 2 ≤ n
              have hs1 : st1.sessionPos = st.sessionPos + produce := rfl
              rw [hs1]
              omega
            obtain ⟨st3, toRead3, heq3, hle3, hcur3, hmf3, hAB3, hiz3, hsrc3,
              hjt3, hfi3, hcap3, hmm3, hjcc3, hjtr3, hibo3, hiba3, hisz3,
              hlfcs3⟩ := ih st2 toRead2 _ k ⟨hmf2, hAB2⟩ hcap2p htr2 hfn
            refine ⟨st3, toRead3, ?_, by omega, ?_, hmf3, hAB3, hiz3,
              by rw [hsrc3, hsrc2], by rw [hjt3, hjt2],
              by rw [hfi3, hfi2], by rw [hcap3, hcap2],
              by rw [hmm3, hmm2], by rw [hjcc3, hjcc2],
              by rw [hjtr3, hjtr2],
              by rw [hibo3, hibo2], by rw [hiba3, hiba2],
              by rw [hisz3, hisz2],
              by rw [hlfcs3, hlfcs2]⟩
            · rw [heq3]
              congr 1
              rw [hsrc2, hst1src, hcur2, hst1cur]
              rw [List.append_assoc, sliceL_concat,
                show toRead - toRead2 + (toRead2 - toRead3) =
                  toRead - toRead3 from by omega]
            · have e1 : st3.currentUncompressedPos =
                  st2.currentUncompressedPos + (toRead2 - toRead3) := hcur3
              have e2 : st2.currentUncompressedPos =
                  st1.currentUncompressedPos + (toRead - toRead2) := hcur2
              have e3 : st1.currentUncompressedPos =
                  st.currentUncompressedPos := hst1cur
              omega
      · -- input exhausted: the loop exits immediately
        refine ⟨st, toRead, ?_, le_refl _, by omega, ⟨hk, hsz, hlf, hib,
          hsess, hip_le, hfresh⟩, ?_, ?_, rfl, rfl, rfl, rfl, rfl, rfl,
          rfl, rfl, rfl, rfl, rfl⟩
        · simp only [innerLoop, if_neg hio]
          have hz : toRead - toRead = 0 := by omega
          rw [hz]
          simp [sliceL]
        · rcases hAB with ⟨ha, hpe⟩ | hb
          · exact Or.inl ⟨ha, hpe⟩
          · exact Or.inr ⟨hb, htr⟩
        · intro _
          omega


/-! ### The outer read loop -/

theorem joinFromC_advance {src : Source} (hpos : ∀ f ∈ src.frames, 0 < f.clen)
    {p k : Nat} (h : frameIdxAt src.frames p = some k) :
    joinFromC src (p + (frameAt src k).clen) = joinFrom src (k + 1) := by
  unfold joinFromC
  unfold frameAt
  rw [frameIdxAt_advance hpos h]
  by_cases hk1 : k + 1 < src.frames.length
  · rw [if_pos hk1]
  · rw [if_neg hk1]
    rw [joinFrom_ge src (by omega)]

theorem frameIdxAt_advance_src {src : Source}
    (hpos : ∀ f ∈ src.frames, 0 < f.clen) {p k : Nat}
    (h : frameIdxAt src.frames p = some k) :
    frameIdxAt src.frames (p + (frameAt src k).clen) =
      if k + 1 < src.frames.length then some (k + 1) else none := by
  unfold frameAt
  exact frameIdxAt_advance hpos h

theorem findFrame_none {src : Source} {p : Nat}
    (h : frameIdxAt src.frames p = none) :
    findFrameCompressedSize src p = 0 := by
  unfold findFrameCompressedSize
  rw [h]

theorem findFrame_some {src : Source} {p k : Nat}
    (h : frameIdxAt src.frames p = some k) :
    findFrameCompressedSize src p = (frameAt src k).clen := by
  unfold findFrameCompressedSize
  rw [h]

theorem frameAt_mem {src : Source} {k : Nat} (hk : k < src.frames.length) :
    frameAt src k ∈ src.frames := by
  unfold frameAt
  show (src.frames.get? k).getD _ ∈ src.frames
  rw [List.get?_eq_getElem?, List.getElem?_eq_getElem hk]
  simp

/-- Frames remaining to begin at the `inBuff` cursor. -/
def remFrames (st : Context) : Nat :=
  match frameIdxAt st.src.frames st.inBuffOff with
  | some k => st.src.frames.length - k
  | none => 0

/-- The post-inner continuation of the outer-loop body, shared by the
resume-mid-frame and bind-next-frame entries (`st1` is the state the
inner loop starts from: the bound state, or `stx` itself). -/
theorem outerCont_ok (stx st1 : Context) (toRead : Nat) (acc : List Nat)
    (k : Nat)
    (hposx : ∀ f ∈ stx.src.frames, 0 < f.clen)
    (hcap : 0 < st1.tmpOutBuffSize)
    (htr : 0 < toRead)
    (hbind : (stx.inputPos = stx.inputSize ∧ st1 = { stx with
        inputBaseOff := stx.inBuffOff,
        inputSize := stx.lastFrameCompressedSize, inputPos := 0 }) ∨
      (¬ stx.inputPos = stx.inputSize ∧ st1 = stx))
    (hmf1 : MidFrame st1 k) (hio1 : st1.inputPos < st1.inputSize)
    (hAB1 : (okA st1 (innerRest st1 k) ∧
        (0 < toRead → pendingOf st1 = [])) ∨ okB st1 (innerRest st1 k))
    (hsrc1 : st1.src = stx.src) (hjt1 : st1.jt = stx.jt)
    (hfi1 : st1.jumpTableFullyInit = stx.jumpTableFullyInit)
    (hcap1 : st1.tmpOutBuffSize = stx.tmpOutBuffSize)
    (hmm1 : st1.mmapFd = stx.mmapFd)
    (hjc1 : st1.jc = stx.jc)
    (hcu1 : st1.currentUncompressedPos = stx.currentUncompressedPos) :
    ∃ st3 toRead2, outerBody (innerFuelOf stx.src) stx toRead acc =
        Sum.inl (st3, toRead2, acc ++
          sliceL (groundTruth stx.src) stx.currentUncompressedPos
            (toRead - toRead2)) ∧
      toRead2 ≤ toRead ∧
      st3.currentUncompressedPos =
        stx.currentUncompressedPos + (toRead - toRead2) ∧
      st3.src = stx.src ∧ st3.jt = stx.jt ∧
      st3.jumpTableFullyInit = stx.jumpTableFullyInit ∧
      st3.tmpOutBuffSize = stx.tmpOutBuffSize ∧ st3.mmapFd = stx.mmapFd ∧
      st3.jc.jtr = stx.jc.jtr ∧
      ((toRead2 = 0 ∧ okA st3 (restBytes st3) ∧ DecodeOK st3 ∧
        st3.tmpOutBuffPos ≤ st3.staging.length) ∨
       (0 < toRead2 ∧ st3.inputPos = st3.inputSize ∧ st3.sessionPos = 0 ∧
        ((okA st3 (restBytes st3) ∧ (0 < toRead2 → pendingOf st3 = [])) ∨
          okB st3 (restBytes st3)) ∧
        remFrames st3 + 1 ≤ stx.src.frames.length - k ∧
        k < stx.src.frames.length)) := by
  have hk1 : frameIdxAt st1.src.frames st1.inputBaseOff = some k := hmf1.1
  have hkx : k < stx.src.frames.length := by
    rw [hsrc1] at hk1
    exact frameIdxAt_lt_length hk1
  have hfuel : (if st1.inputPos < st1.inputSize then
      (frameAt st1.src k).content.length - st1.sessionPos + 2 else 1) ≤
      innerFuelOf stx.src := by
    rw [if_pos hio1]
    have hc := contentLen_le_totalU st1.src
      (show k < st1.src.frames.length by rw [hsrc1]; exact hkx)
    unfold innerFuelOf
    rw [← hsrc1]
    omega
  obtain ⟨st2, toRead2, heqI, hle2, hcur2, hmf2, hAB2, hiz2, hsrc2, hjt2,
    hfi2, hcap2, hmm2, hjcc2, hjtr2, hibo2, hiba2, hisz2, hlfcs2⟩ :=
    innerLoop_ok (innerFuelOf stx.src) st1 toRead acc k ⟨hmf1, by
      rcases hAB1 with ⟨ha, hc⟩ | hb
      · exact Or.inl ⟨ha, hc⟩
      · exact Or.inr hb⟩ hcap htr hfuel
  have hbody : outerBody (innerFuelOf stx.src) stx toRead acc =
      Sum.inl (if st2.inputPos = st2.inputSize then { st2 with
          inBuffOff := st2.inBuffOff + st2.lastFrameCompressedSize }
        else st2, toRead2,
        acc ++ sliceL (groundTruth stx.src) stx.currentUncompressedPos
          (toRead - toRead2)) := by
    rcases hbind with ⟨hfr, hst1eq⟩ | ⟨hnfr, hst1eq⟩
    · simp only [outerBody, if_pos hfr]
      rw [← hst1eq, heqI, hsrc1, hcu1]
    · have heqI2 := hst1eq ▸ heqI
      simp only [outerBody, if_neg hnfr]
      rw [heqI2]
  have hk2 : frameIdxAt st2.src.frames st2.inputBaseOff = some k := hmf2.1
  have hlf2 : st2.lastFrameCompressedSize = (frameAt st2.src k).clen :=
    hmf2.2.2.1
  have hib2 : st2.inBuffOff = st2.inputBaseOff := hmf2.2.2.2.1
  have hsrc2x : st2.src = stx.src := by rw [hsrc2, hsrc1]
  have hcu2 : st2.currentUncompressedPos =
      stx.currentUncompressedPos + (toRead - toRead2) := by
    rw [hcur2, hcu1]
  by_cases hadv : st2.inputPos = st2.inputSize
  · -- frame consumed: inBuff advances past it
    rw [if_pos hadv] at hbody
    have hs02 : st2.sessionPos = 0 := hmf2.2.2.2.2.2.2 hadv
    set st3 : Context := { st2 with
      inBuffOff := st2.inBuffOff + st2.lastFrameCompressedSize } with hst3
    have hrest3 : restBytes st3 = innerRest st2 k := by
      unfold restBytes
      have hnlt : ¬ st3.inputPos < st3.inputSize := by
        show ¬ st2.inputPos < st2.inputSize
        omega
      rw [if_neg hnlt]
      show joinFromC st2.src (st2.inBuffOff + st2.lastFrameCompressedSize) = _
      rw [hib2, hlf2]
      rw [joinFromC_advance (by rw [hsrc2x]; exact hposx) hk2]
      unfold innerRest
      rw [if_neg (by omega : ¬ st2.inputPos < st2.inputSize)]
    have hAB3 : (okA st3 (restBytes st3) ∧
        (0 < toRead2 → pendingOf st3 = [])) ∨
        (okB st3 (restBytes st3) ∧ 0 < toRead2) := by
      rw [hrest3]
      rcases hAB2 with ⟨ha, hc⟩ | ⟨hb, hp⟩
      · exact Or.inl ⟨ha, hc⟩
      · exact Or.inr ⟨hb, hp⟩
    have hrem3 : remFrames st3 + 1 ≤ stx.src.frames.length - k := by
      unfold remFrames
      show (match frameIdxAt st2.src.frames
        (st2.inBuffOff + st2.lastFrameCompressedSize) with
        | some j => st2.src.frames.length - j
        | none => 0) + 1 ≤ _
      rw [hib2, hlf2]
      have hadv2 := @frameIdxAt_advance_src st2.src
        (by rw [hsrc2x]; exact hposx) st2.inputBaseOff k hk2
      have hklen2 : k < st2.src.frames.length := frameIdxAt_lt_length hk2
      by_cases hlt : k + 1 < st2.src.frames.length
      · rw [if_pos hlt] at hadv2
        rw [hadv2]
        show st2.src.frames.length - (k + 1) + 1 ≤ stx.src.frames.length - k
        rw [hsrc2x] at hklen2 hlt ⊢
        omega
      · rw [if_neg hlt] at hadv2
        rw [hadv2]
        show (0 : Nat) + 1 ≤ stx.src.frames.length - k
        rw [hsrc2x] at hklen2
        omega
    by_cases hz : toRead2 = 0
    · subst hz
      rcases hAB3 with ⟨ha3, _⟩ | ⟨_, hb3⟩
      · refine ⟨st3, 0, hbody, Nat.zero_le _, ?_, by rw [show st3.src = st2.src
          from rfl, hsrc2x], by show st2.jt = stx.jt; rw [hjt2, hjt1],
          by show st2.jumpTableFullyInit = _; rw [hfi2, hfi1],
          by show st2.tmpOutBuffSize = _; rw [hcap2, hcap1],
          by show st2.mmapFd = _; rw [hmm2, hmm1],
          by show st2.jc.jtr = _; rw [hjtr2, hjc1],
          Or.inl ⟨rfl, ha3, ?_, ?_⟩⟩
        · show st2.currentUncompressedPos = _
          exact hcu2
        · exact Or.inl ⟨hadv, hs02⟩
        · exact ha3.2.1
      · omega
    · have hz2 : 0 < toRead2 := by omega
      refine ⟨st3, toRead2, hbody, hle2, ?_, by rw [show st3.src = st2.src
          from rfl, hsrc2x], by show st2.jt = stx.jt; rw [hjt2, hjt1],
          by show st2.jumpTableFullyInit = _; rw [hfi2, hfi1],
          by show st2.tmpOutBuffSize = _; rw [hcap2, hcap1],
          by show st2.mmapFd = _; rw [hmm2, hmm1],
          by show st2.jc.jtr = _; rw [hjtr2, hjc1],
          Or.inr ⟨hz2, hadv, hs02, ?_, hrem3, hkx⟩⟩
      · show st2.currentUncompressedPos = _
        exact hcu2
      · rcases hAB3 with ⟨ha, hc⟩ | ⟨hb, _⟩
        · exact Or.inl ⟨ha, hc⟩
        · exact Or.inr hb
  · -- exited mid-frame: the request was satisfied
    rw [if_neg hadv] at hbody
    have hz : toRead2 = 0 := by
      by_contra hz
      exact hadv (hiz2 (by omega))
    subst hz
    have hio2 : st2.inputPos < st2.inputSize := by
      have := hmf2.2.2.2.2.2.1
      omega
    have hrest2 : restBytes st2 = innerRest st2 k := by
      unfold restBytes innerRest
      rw [if_pos hio2, if_pos hio2, hk2]
    have hAB2x : okA st2 (restBytes st2) := by
      rw [hrest2]
      rcases hAB2 with ⟨ha, _⟩ | ⟨_, hp⟩
      · exact ha
      · omega
    refine ⟨st2, 0, hbody, Nat.zero_le _, hcu2, hsrc2x,
      by rw [hjt2, hjt1], by rw [hfi2, hfi1], by rw [hcap2, hcap1],
      by rw [hmm2, hmm1], by rw [hjtr2, hjc1],
      Or.inl ⟨rfl, hAB2x, ?_, hAB2x.2.1⟩⟩
    exact Or.inr ⟨hio2, k, hk2, hmf2.2.1, hmf2.2.2.1, hmf2.2.2.2.1,
      hmf2.2.2.2.2.1⟩

/-- Invariant of the outer read loop. -/
def OuterInv (st : Context) (toRead : Nat) : Prop :=
  (∀ f ∈ st.src.frames, 0 < f.clen) ∧
  0 < st.tmpOutBuffSize ∧
  DecodeOK st ∧
  toRead ≤ totalU st.src - st.currentUncompressedPos ∧
  ((okA st (restBytes st) ∧ (0 < toRead → pendingOf st = [])) ∨
   okB st (restBytes st))

/-- One iteration of the outer loop, from either entry (mid-frame
resume or fresh bind of the frame at `inBuff`): it delivers a further
slice of the ground truth and either finishes the request or recurses
with the invariant restored and one frame consumed. -/
theorem outerEntry_ok (iF fuel : Nat) (st : Context) (toRead : Nat)
    (acc : List Nat) (hIF : iF = innerFuelOf st.src)
    (hinv : OuterInv st toRead) (htr : 0 < toRead) :
    ∃ st3 toRead2,
      outerLoop iF (fuel + 1) st toRead acc =
        (if toRead2 = 0 then Sum.inl (st3, toRead2, acc ++
            sliceL (groundTruth st.src) st.currentUncompressedPos
              (toRead - toRead2))
         else outerLoop iF fuel st3 toRead2 (acc ++
            sliceL (groundTruth st.src) st.currentUncompressedPos
              (toRead - toRead2))) ∧
      toRead2 ≤ toRead ∧
      st3.currentUncompressedPos =
        st.currentUncompressedPos + (toRead - toRead2) ∧
      st3.src = st.src ∧ st3.jt = st.jt ∧
      st3.jumpTableFullyInit = st.jumpTableFullyInit ∧
      st3.tmpOutBuffSize = st.tmpOutBuffSize ∧ st3.mmapFd = st.mmapFd ∧
      st3.jc.jtr = st.jc.jtr ∧
      ((toRead2 = 0 ∧ okA st3 (restBytes st3) ∧ DecodeOK st3 ∧
        st3.tmpOutBuffPos ≤ st3.staging.length) ∨
       (0 < toRead2 ∧ OuterInv st3 toRead2 ∧
        remFrames st3 + 1 ≤ remFrames st)) := by
  obtain ⟨hpos, hcap, hdec, hbound, hAB⟩ := hinv
  by_cases hio : st.inputPos < st.inputSize
  · -- resume mid-frame
    obtain ⟨k, hk, hsz, hlf, hib, hsess⟩ :
        ∃ k, frameIdxAt st.src.frames st.inputBaseOff = some k ∧
          st.inputSize = (frameAt st.src k).clen ∧
          st.lastFrameCompressedSize = (frameAt st.src k).clen ∧
          st.inBuffOff = st.inputBaseOff ∧
          st.sessionPos ≤ (frameAt st.src k).content.length := by
      rcases hdec with ⟨he, _⟩ | ⟨_, k, h1, h2, h3, h4, h5⟩
      · omega
      · exact ⟨k, h1, h2, h3, h4, h5⟩
    have hmf : MidFrame st k :=
      ⟨hk, hsz, hlf, hib, hsess, by omega, by omega⟩
    have hRR : innerRest st k = restBytes st := by
      unfold innerRest restBytes
      rw [if_pos hio, if_pos hio, hk]
    have hAB1 : (okA st (innerRest st k) ∧
        (0 < toRead → pendingOf st = [])) ∨ okB st (innerRest st k) := by
      rw [hRR]; exact hAB
    obtain ⟨st3, toRead2, hbody, hle2, hcu3, hsrc3, hjt3, hfi3, hcap3,
      hmm3, hjtr3, hbr⟩ :=
      outerCont_ok st st toRead acc k hpos hcap htr
        (Or.inr ⟨by omega, rfl⟩) hmf hio hAB1 rfl rfl rfl rfl rfl rfl rfl
    have hrem : remFrames st = st.src.frames.length - k := by
      unfold remFrames
      rw [hib, hk]
    have hrun : outerLoop iF (fuel + 1) st toRead acc =
        (if toRead2 = 0 then Sum.inl (st3, toRead2, acc ++
            sliceL (groundTruth st.src) st.currentUncompressedPos
              (toRead - toRead2))
         else outerLoop iF fuel st3 toRead2 (acc ++
            sliceL (groundTruth st.src) st.currentUncompressedPos
              (toRead - toRead2))) := by
      simp only [outerLoop]
      rw [if_neg (by omega : ¬ toRead = 0), if_pos hio, hIF, hbody]
    refine ⟨st3, toRead2, hrun, hle2, hcu3, hsrc3, hjt3, hfi3, hcap3,
      hmm3, hjtr3, ?_⟩
    rcases hbr with ⟨hz, hA3, hd3, hc3⟩ | ⟨hz, hips, hs0, hAB3, hrem3, hklt⟩
    · exact Or.inl ⟨hz, hA3, hd3, hc3⟩
    · refine Or.inr ⟨hz, ⟨by rw [hsrc3]; exact hpos,
        by rw [hcap3]; exact hcap, Or.inl ⟨hips, hs0⟩, ?_, hAB3⟩, ?_⟩
      · rw [hsrc3, hcu3]
        omega
      · omega
  · -- bind the frame at inBuff
    have hfresh : st.inputPos = st.inputSize ∧ st.sessionPos = 0 := by
      rcases hdec with h | ⟨hlt, _⟩
      · exact h
      · omega
    rcases hfr : frameIdxAt st.src.frames st.inBuffOff with _ | k
    · -- no frame here: impossible while 0 < toRead
      exfalso
      have hrb : restBytes st = [] := by
        unfold restBytes
        rw [if_neg hio]
        unfold joinFromC
        rw [hfr]
      rcases hAB with ⟨⟨_, _, hstream⟩, hpend⟩ | ⟨hq, hql, _⟩
      · rw [hpend htr, hrb] at hstream
        have := congrArg List.length hstream
        simp only [List.length_append, List.length_nil, List.length_drop,
          groundTruth_length] at this
        omega
      · rw [hrb] at hql
        simp at hql
        omega
    · -- frame k starts at inBuff
      have hklt : k < st.src.frames.length := frameIdxAt_lt_length hfr
      have hclpos : 0 < (frameAt st.src k).clen :=
        hpos _ (frameAt_mem hklt)
      have hfcs : findFrameCompressedSize st.src st.inBuffOff =
          (frameAt st.src k).clen := findFrame_some hfr
      set stc : Context := { st with
        lastFrameCompressedSize := (frameAt st.src k).clen } with hstc
      have hmf1 : MidFrame { stc with
          inputBaseOff := stc.inBuffOff,
          inputSize := stc.lastFrameCompressedSize, inputPos := 0 } k := by
        refine ⟨?_, rfl, rfl, rfl, ?_, ?_, ?_⟩
        · show frameIdxAt st.src.frames st.inBuffOff = some k
          exact hfr
        · show st.sessionPos ≤ _
          rw [hfresh.2]
          exact Nat.zero_le _
        · show 0 ≤ (frameAt st.src k).clen
          exact Nat.zero_le _
        · intro _
          exact hfresh.2
      have hRR : innerRest { stc with
          inputBaseOff := stc.inBuffOff,
          inputSize := stc.lastFrameCompressedSize, inputPos := 0 } k =
          restBytes st := by
        unfold innerRest restBytes
        rw [if_pos (show (0:Nat) < (frameAt st.src k).clen from hclpos),
          if_neg hio]
        show (frameAt st.src k).content.drop st.sessionPos ++ _ =
          joinFromC st.src st.inBuffOff
        rw [hfresh.2, List.drop_zero]
        unfold joinFromC
        rw [hfr]
        show (frameAt st.src k).content ++ joinFrom st.src (k + 1) =
          joinFrom st.src k
        rw [joinFrom_succ st.src hklt]
      have hAB1 : (okA { stc with
            inputBaseOff := stc.inBuffOff,
            inputSize := stc.lastFrameCompressedSize, inputPos := 0 }
            (innerRest { stc with
              inputBaseOff := stc.inBuffOff,
              inputSize := stc.lastFrameCompressedSize, inputPos := 0 } k) ∧
          (0 < toRead → pendingOf { stc with
            inputBaseOff := stc.inBuffOff,
            inputSize := stc.lastFrameCompressedSize, inputPos := 0 } = []))
          ∨ okB { stc with
            inputBaseOff := stc.inBuffOff,
            inputSize := stc.lastFrameCompressedSize, inputPos := 0 }
            (innerRest { stc with
              inputBaseOff := stc.inBuffOff,
              inputSize := stc.lastFrameCompressedSize, inputPos := 0 } k)
          := by
        rw [hRR]
        rcases hAB with ⟨hA, hP⟩ | hB
        · exact Or.inl ⟨⟨hA.1, hA.2.1, hA.2.2⟩, hP⟩
        · exact Or.inr ⟨hB.1, hB.2.1, hB.2.2⟩
      obtain ⟨st3, toRead2, hbody, hle2, hcu3, hsrc3, hjt3, hfi3, hcap3,
        hmm3, hjtr3, hbr⟩ :=
        outerCont_ok stc { stc with
            inputBaseOff := stc.inBuffOff,
            inputSize := stc.lastFrameCompressedSize, inputPos := 0 }
          toRead acc k hpos hcap htr
          (Or.inl ⟨hfresh.1, rfl⟩) hmf1
          (by show (0:Nat) < (frameAt st.src k).clen; exact hclpos)
          hAB1 rfl rfl rfl rfl rfl rfl rfl
      have hrem : remFrames st = st.src.frames.length - k := by
        unfold remFrames
        rw [hfr]
      have hrun : outerLoop iF (fuel + 1) st toRead acc =
          (if toRead2 = 0 then Sum.inl (st3, toRead2, acc ++
              sliceL (groundTruth st.src) st.currentUncompressedPos
                (toRead - toRead2))
           else outerLoop iF fuel st3 toRead2 (acc ++
              sliceL (groundTruth st.src) st.currentUncompressedPos
                (toRead - toRead2))) := by
        simp only [outerLoop]
        rw [if_neg (by omega : ¬ toRead = 0), if_neg hio, hfcs,
          if_pos hclpos, hIF, ← hstc, hbody]
      refine ⟨st3, toRead2, hrun, hle2, hcu3, hsrc3, hjt3, hfi3, hcap3,
        hmm3, hjtr3, ?_⟩
      rcases hbr with ⟨hz, hA3, hd3, hc3⟩ |
        ⟨hz, hips, hs0, hAB3, hrem3, _⟩
      · exact Or.inl ⟨hz, hA3, hd3, hc3⟩
      · refine Or.inr ⟨hz, ⟨by rw [hsrc3]; exact hpos,
          by rw [hcap3]; exact hcap, Or.inl ⟨hips, hs0⟩, ?_, hAB3⟩, ?_⟩
        · rw [hsrc3, hcu3]
          show toRead2 ≤ totalU st.src -
            (st.currentUncompressedPos + (toRead - toRead2))
          omega
        · rw [hrem]
          exact hrem3

/-- The outer read loop delivers exactly the requested slice of the
ground truth whenever the invariant holds and the fuel covers the
remaining frames. -/
theorem outerLoop_ok : ∀ (fuel iF : Nat) (st : Context) (toRead : Nat)
    (acc : List Nat), iF = innerFuelOf st.src →
    OuterInv st toRead → 0 < toRead →
    remFrames st + 1 ≤ fuel →
    ∃ st2, outerLoop iF fuel st toRead acc =
        Sum.inl (st2, 0, acc ++
          sliceL (groundTruth st.src) st.currentUncompressedPos toRead) ∧
      st2.currentUncompressedPos = st.currentUncompressedPos + toRead ∧
      okA st2 (restBytes st2) ∧ DecodeOK st2 ∧
      st2.src = st.src ∧ st2.jt = st.jt ∧
      st2.jumpTableFullyInit = st.jumpTableFullyInit ∧
      st2.tmpOutBuffSize = st.tmpOutBuffSize ∧ st2.mmapFd = st.mmapFd ∧
      st2.jc.jtr = st.jc.jtr := by
  intro fuel
  induction fuel with
  | zero =>
      intro iF st toRead acc _ _ _ hfuel
      omega
  | succ n ih =>
      intro iF st toRead acc hIF hinv htr hfuel
      obtain ⟨st3, toRead2, hrun, hle2, hcu3, hsrc3, hjt3, hfi3, hcap3,
        hmm3, hjtr3, hbr⟩ := outerEntry_ok iF n st toRead acc hIF hinv htr
      rcases hbr with ⟨hz, hA3, hd3, _⟩ | ⟨hz, hinv3, hrem3⟩
      · subst hz
        rw [if_pos rfl] at hrun
        rw [Nat.sub_zero] at hrun hcu3
        exact ⟨st3, hrun, hcu3, hA3, hd3, hsrc3, hjt3, hfi3, hcap3,
          hmm3, hjtr3⟩
      · rw [if_neg (by omega : ¬ toRead2 = 0)] at hrun
        obtain ⟨st2, hrun2, hcu2, hA2, hd2, hsrc2, hjt2, hfi2, hcap2,
          hmm2, hjtr2⟩ := ih iF st3 toRead2
          (acc ++ sliceL (groundTruth st.src) st.currentUncompressedPos
            (toRead - toRead2))
          (by rw [hsrc3]; exact hIF) hinv3 hz (by omega)
        refine ⟨st2, ?_, by omega, hA2, hd2, by rw [hsrc2, hsrc3],
          by rw [hjt2, hjt3], by rw [hfi2, hfi3], by rw [hcap2, hcap3],
          by rw [hmm2, hmm3], by rw [hjtr2, hjtr3]⟩
        rw [hrun, hrun2, hsrc3, hcu3, List.append_assoc, sliceL_concat]
        rw [show toRead - toRead2 + toRead2 = toRead by omega]

/-! ### Reading through the public entry -/

theorem outerLoop_zeroRead (iF fuel : Nat) (st : Context)
    (acc : List Nat) : outerLoop iF fuel st 0 acc = Sum.inl (st, 0, acc) := by
  cases fuel with
  | zero => rfl
  | succ n =>
      simp only [outerLoop]
      rw [if_pos trivial]

theorem remFrames_le (st : Context) :
    remFrames st ≤ st.src.frames.length := by
  unfold remFrames
  cases h : frameIdxAt st.src.frames st.inBuffOff with
  | none => exact Nat.zero_le _
  | some k => exact Nat.sub_le _ _

theorem lastKnownSize_congr (st2 st : Context) (hjt : st2.jt = st.jt) :
    lastKnownSize st2 = lastKnownSize st := by
  unfold lastKnownSize
  rw [hjt]

theorem restBytes_eq_of (st2 st : Context) (hsrc : st2.src = st.src)
    (hip : st2.inputPos = st.inputPos) (hisz : st2.inputSize = st.inputSize)
    (hiba : st2.inputBaseOff = st.inputBaseOff)
    (hsess : st2.sessionPos = st.sessionPos)
    (hibo : st2.inBuffOff = st.inBuffOff) :
    restBytes st2 = restBytes st := by
  unfold restBytes joinFromC
  rw [hsrc, hip, hisz, hiba, hsess, hibo]

theorem decodeOK_iff (st2 st : Context) (hsrc : st2.src = st.src)
    (hip : st2.inputPos = st.inputPos) (hisz : st2.inputSize = st.inputSize)
    (hiba : st2.inputBaseOff = st.inputBaseOff)
    (hsess : st2.sessionPos = st.sessionPos)
    (hibo : st2.inBuffOff = st.inBuffOff)
    (hlf : st2.lastFrameCompressedSize = st.lastFrameCompressedSize) :
    DecodeOK st2 ↔ DecodeOK st := by
  unfold DecodeOK
  rw [hsrc, hip, hisz, hiba, hsess, hibo, hlf]

/-- A drained (`okA`) coherent state that kept the table and the source
is again a good state. -/
theorem goodSt_rebuild (st2 st : Context) (hg : GoodSt st)
    (hsrc : st2.src = st.src) (hjt : st2.jt = st.jt)
    (hfi : st2.jumpTableFullyInit = st.jumpTableFullyInit)
    (hcap : st2.tmpOutBuffSize = st.tmpOutBuffSize)
    (hcur : st2.currentUncompressedPos ≤ totalU st2.src)
    (hA : okA st2 (restBytes st2)) (hd : DecodeOK st2) : GoodSt st2 where
  frames_pos := by rw [hsrc]; exact hg.frames_pos
  fullyInit := by rw [hfi]; exact hg.fullyInit
  jt_rec := by rw [hjt, hsrc]; exact hg.jt_rec
  jt_last := by
    rw [lastKnownSize_congr st2 st hjt, hsrc]
    exact hg.jt_last
  cap_pos := by rw [hcap]; exact hg.cap_pos
  cur_le := hcur
  cursor_le := hA.2.1
  quota_pending := by
    rw [hA.1]
    intro h
    omega
  quota_le := by
    rw [hA.1]
    exact Nat.zero_le _
  decode := hd
  stream := by
    rw [hA.1, List.drop_zero]
    exact hA.2.2

/-- `ZSTDSeek_read` on a good (fully initialized, coherent) state
returns exactly the next `min (remaining) n` bytes of the uncompressed
stream and re-establishes the invariant. -/
theorem readCtx_ok (st : Context) (n : Nat) (hg : GoodSt st) :
    ∃ st2, readCtx st n =
        ReadRes.ok (min (totalU st.src - st.currentUncompressedPos) n)
          (sliceL (groundTruth st.src) st.currentUncompressedPos
            (min (totalU st.src - st.currentUncompressedPos) n)) st2 ∧
      st2.currentUncompressedPos = st.currentUncompressedPos +
        min (totalU st.src - st.currentUncompressedPos) n ∧
      GoodSt st2 ∧ st2.src = st.src ∧ st2.jt = st.jt ∧
      st2.jumpTableFullyInit = st.jumpTableFullyInit ∧
      st2.tmpOutBuffSize = st.tmpOutBuffSize ∧ st2.mmapFd = st.mmapFd := by
  have hst1 := getJC_state hg.fullyInit st.currentUncompressedPos
  obtain ⟨c0, hc0⟩ : ∃ c, (getJumpCoordinate st
      st.currentUncompressedPos).1.jtr.compressedPos = c := ⟨_, rfl⟩
  set st1 : Context := { st with currentCompressedPos := c0 } with hst1d
  have hread : readCtx st n = (fun d =>
      match outerLoop (innerFuelOf st1.src) (outerFuelOf st1.src)
          d.1 d.2.1 d.2.2 with
      | Sum.inr st2 => ReadRes.rerr st2
      | Sum.inl (st2, toRead2, acc2) =>
          ReadRes.ok ((min (lastKnownSize st1 - st1.currentUncompressedPos)
            n) - toRead2) acc2 st2)
      (if st1.tmpOutBuffPos < st1.staging.length
        then drainQuota st1 (min (lastKnownSize st1 -
          st1.currentUncompressedPos) n) []
        else (st1, min (lastKnownSize st1 - st1.currentUncompressedPos) n,
          [])) := by
    simp only [readCtx]
    rw [hst1, hc0]
  have hg1 : GoodSt st1 :=
    ⟨hg.frames_pos, hg.fullyInit, hg.jt_rec, hg.jt_last, hg.cap_pos,
     hg.cur_le, hg.cursor_le, hg.quota_pending, hg.quota_le, hg.decode,
     hg.stream⟩
  have hlk1 : lastKnownSize st1 = totalU st.src := hg.jt_last
  have hcur1 : st1.currentUncompressedPos = st.currentUncompressedPos := rfl
  have hsrc1 : st1.src = st.src := rfl
  set T := min (totalU st.src - st.currentUncompressedPos) n with hT
  have hTtot : T ≤ totalU st.src - st.currentUncompressedPos :=
    min_le_left _ _
  have hTeq : min (lastKnownSize st1 - st1.currentUncompressedPos) n = T := by
    rw [hlk1, hcur1]
  rw [hTeq] at hread
  have hdrain : ∃ stD TD,
      (if st1.tmpOutBuffPos < st1.staging.length
        then drainQuota st1 T [] else (st1, T, [])) = (stD, TD,
        sliceL (groundTruth st.src) st.currentUncompressedPos (T - TD)) ∧
      TD ≤ T ∧
      stD.currentUncompressedPos = st.currentUncompressedPos + (T - TD) ∧
      stD.src = st.src ∧ stD.jt = st.jt ∧
      stD.jumpTableFullyInit = st.jumpTableFullyInit ∧
      stD.tmpOutBuffSize = st.tmpOutBuffSize ∧ stD.mmapFd = st.mmapFd ∧
      DecodeOK stD ∧
      ((okA stD (restBytes stD) ∧ (0 < TD → pendingOf stD = [])) ∨
       (okB stD (restBytes stD) ∧ TD = T ∧ stD = st1)) := by
    by_cases hpre : st1.tmpOutBuffPos < st1.staging.length
    · obtain ⟨stD, TD, hdq, hTDle, hcurD, hsrcD, hjtD, hfiD, hcapD,
        hstagD, hiboD, hibaD, hiszD, hipD, hsessD, hlfD, hjccD, hjtrD,
        hccpD, hmmD, hABD⟩ :=
        drainQuota_spec st1 T [] (restBytes st1) hg1.cursor_le
          (fun h => absurd (hg1.quota_pending h) (by omega))
          hg1.stream hg1.quota_le
      have hrestD : restBytes stD = restBytes st1 :=
        restBytes_eq_of stD st1 hsrcD hipD hiszD hibaD hsessD hiboD
      have hq0 : st1.jc.uncompressedOffset = 0 := by
        by_contra hq
        have := hg1.quota_pending (by omega)
        omega
      rcases hABD with ⟨hA, hP⟩ | ⟨hB, _⟩
      · refine ⟨stD, TD, ?_, hTDle, hcurD, hsrcD, hjtD, hfiD, hcapD,
          hmmD, ?_, Or.inl ⟨?_, hP⟩⟩
        · rw [if_pos hpre, hdq]
          simp
        · exact (decodeOK_iff stD st1 hsrcD hipD hiszD hibaD hsessD
            hiboD hlfD).mpr hg1.decode
        · rw [hrestD]
          exact hA
      · exfalso
        rw [drainQuota_eq_A st1 T [] (by omega)] at hdq
        injection hdq with h1 h2
        have hqD : stD.jc.uncompressedOffset = 0 := by
          rw [← h1]
        exact absurd hB.1 (by omega)
    · refine ⟨st1, T, ?_, le_refl _, by rw [hcur1]; omega, rfl, rfl, rfl,
        rfl, rfl, hg1.decode, ?_⟩
      · rw [if_neg hpre, Nat.sub_self]
        rfl
      · by_cases hq : 0 < st1.jc.uncompressedOffset
        · right
          have hcl : st1.tmpOutBuffPos = st1.staging.length :=
            hg1.quota_pending hq
          have hpe : pendingOf st1 = [] := by
            unfold pendingOf
            rw [hcl, List.drop_length]
          have hql := hg1.quota_le
          have hst := hg1.stream
          rw [hpe] at hql hst
          simp at hql hst
          exact ⟨⟨hq, hql, hst⟩, rfl, rfl⟩
        · left
          have hq0 : st1.jc.uncompressedOffset = 0 := by omega
          have hst := hg1.stream
          rw [hq0, List.drop_zero] at hst
          refine ⟨⟨hq0, hg1.cursor_le, hst⟩, ?_⟩
          intro _
          unfold pendingOf
          rw [List.drop_eq_nil_of_le (by omega : st1.staging.length ≤
            st1.tmpOutBuffPos)]
  obtain ⟨stD, TD, hdeq, hTDle, hcurD, hsrcD, hjtD, hfiD, hcapD, hmmD,
    hdecD, hABD⟩ := hdrain
  rw [hdeq] at hread
  simp only at hread
  by_cases hTD0 : TD = 0
  · subst hTD0
    rw [outerLoop_zeroRead] at hread
    simp only [Nat.sub_zero] at hread hcurD
    refine ⟨stD, hread, hcurD, ?_, hsrcD, hjtD, hfiD, hcapD, hmmD⟩
    rcases hABD with ⟨hA, _⟩ | ⟨hB, hTz, hD1⟩
    · exact goodSt_rebuild stD st hg hsrcD hjtD hfiD hcapD
        (by rw [hsrcD, hcurD]; have := hg.cur_le; omega) hA hdecD
    · subst hD1
      exact hg1
  · have hOI : OuterInv stD TD := by
      refine ⟨by rw [hsrcD]; exact hg.frames_pos,
        by rw [hcapD]; exact hg.cap_pos, hdecD, ?_, ?_⟩
      · rw [hsrcD, hcurD]
        omega
      · rcases hABD with ⟨hA, hP⟩ | ⟨hB, _, _⟩
        · exact Or.inl ⟨hA, hP⟩
        · exact Or.inr hB
    have hflen : stD.src.frames.length = st.src.frames.length := by
      rw [hsrcD]
    have hfuelO : remFrames stD + 1 ≤ outerFuelOf st1.src := by
      have h1 := remFrames_le stD
      simp only [outerFuelOf]
      have h2 : st1.src.frames.length = st.src.frames.length := rfl
      omega
    obtain ⟨fuelO, hfO⟩ : ∃ f, outerFuelOf st1.src = f := ⟨_, rfl⟩
    rw [hfO] at hread hfuelO
    obtain ⟨st2, hrun2, hcu2, hA2, hd2, hsrc2, hjt2, hfi2, hcap2, hmm2,
      hjtr2⟩ := outerLoop_ok fuelO (innerFuelOf st1.src) stD TD
      (sliceL (groundTruth st.src) st.currentUncompressedPos (T - TD))
      (by rw [hsrcD]) hOI (by omega) hfuelO
    rw [hrun2] at hread
    simp only [Nat.sub_zero] at hread
    rw [hsrcD, hcurD, sliceL_concat,
      (by omega : T - TD + TD = T)] at hread
    refine ⟨st2, hread, by omega, ?_, by rw [hsrc2, hsrcD],
      by rw [hjt2, hjtD], by rw [hfi2, hfiD], by rw [hcap2, hcapD],
      by rw [hmm2, hmmD]⟩
    refine goodSt_rebuild st2 st hg (by rw [hsrc2, hsrcD])
      (by rw [hjt2, hjtD]) (by rw [hfi2, hfiD]) (by rw [hcap2, hcapD])
      ?_ hA2 hd2
    rw [hsrc2, hsrcD]
    have := hg.cur_le
    omega

/-! ### Seeking -/

/-- The skip-forward loop preserves the invariant and advances the
position by exactly the skipped amount (it never runs past the end of
the stream). -/
theorem skipLoop_ok : ∀ (fuel : Nat) (st : Context) (tsk : Nat),
    GoodSt st → st.currentUncompressedPos + tsk ≤ totalU st.src →
    tsk < fuel →
    ∃ st2, skipLoop fuel st tsk = st2 ∧ GoodSt st2 ∧
      st2.currentUncompressedPos = st.currentUncompressedPos + tsk ∧
      st2.src = st.src ∧ st2.jt = st.jt ∧
      st2.jumpTableFullyInit = st.jumpTableFullyInit ∧
      st2.tmpOutBuffSize = st.tmpOutBuffSize ∧ st2.mmapFd = st.mmapFd := by
  intro fuel
  induction fuel with
  | zero =>
      intro st tsk _ _ h
      omega
  | succ n ih =>
      intro st tsk hg hend hf
      by_cases h0 : tsk = 0
      · subst h0
        refine ⟨st, ?_, hg, by omega, rfl, rfl, rfl, rfl, rfl⟩
        simp only [skipLoop]
        rw [if_pos trivial]
      · obtain ⟨st1, hre, hcu1, hg1, hsrc1, hjt1, hfi1, hcap1, hmm1⟩ :=
          readCtx_ok st (min dStreamOutSize tsk) hg
        have hcnt : min (totalU st.src - st.currentUncompressedPos)
            (min dStreamOutSize tsk) = min dStreamOutSize tsk := by
          have : min dStreamOutSize tsk ≤ tsk := min_le_right _ _
          omega
        rw [hcnt] at hre hcu1
        have hds : 0 < dStreamOutSize := by decide
        have hpos : 0 < min dStreamOutSize tsk := by omega
        obtain ⟨st2, hsk, hg2, hcu2, hsrc2, hjt2, hfi2, hcap2, hmm2⟩ :=
          ih st1 (tsk - min dStreamOutSize tsk) hg1
            (by rw [hcu1, hsrc1]; omega) (by omega)
        refine ⟨st2, ?_, hg2, by omega, by rw [hsrc2, hsrc1],
          by rw [hjt2, hjt1], by rw [hfi2, hfi1], by rw [hcap2, hcap1],
          by rw [hmm2, hmm1]⟩
        simp only [skipLoop]
        rw [if_neg h0, hre]
        exact hsk

/-- `SEEK_SET` on a good state to any in-range offset succeeds and
moves the position there, preserving the invariant (on both the reset
path and the skip-forward path). -/
theorem seekSet_ok (st : Context) (offset : Int) (hg : GoodSt st)
    (hnn : 0 ≤ offset) (hle : offset.toNat ≤ totalU st.src) :
    ∃ st2, seekSet st offset = (0, st2) ∧ GoodSt st2 ∧
      st2.currentUncompressedPos = offset.toNat ∧
      st2.src = st.src ∧ st2.jt = st.jt ∧
      st2.jumpTableFullyInit = st.jumpTableFullyInit ∧
      st2.tmpOutBuffSize = st.tmpOutBuffSize ∧ st2.mmapFd = st.mmapFd := by
  have hoff : ¬ offset < 0 := by omega
  have hst1 : (if offset > 0 then (getJumpCoordinate st
      (st.currentUncompressedPos + offset.toNat)).2 else st) = st := by
    by_cases hp : offset > 0
    · rw [if_pos hp]
      exact getJC_state hg.fullyInit _
    · rw [if_neg hp]
  have hB : ¬ (offset > 0 ∧ offset.toNat > lastKnownSize st) := by
    rintro ⟨_, hb⟩
    rw [hg.jt_last] at hb
    omega
  obtain ⟨jc1, hjc1⟩ : ∃ j, (getJumpCoordinate st offset.toNat).1 = j :=
    ⟨_, rfl⟩
  have hred : seekSet st offset =
      (if offset.toNat = st.currentUncompressedPos then ((0 : Int), st)
       else if st.jc.compressedOffset ≠ jc1.compressedOffset ∨
          offset.toNat < st.currentUncompressedPos then
        ((0 : Int), { st with
          jc := jc1,
          inBuffOff := jc1.compressedOffset,
          currentUncompressedPos := offset.toNat,
          currentCompressedPos := jc1.compressedOffset,
          tmpOutBuffPos := 0,
          inputBaseOff := jc1.compressedOffset, inputSize := 0,
          inputPos := 0, staging := [], sessionPos := 0 })
       else ((0 : Int), skipLoop
          (offset.toNat - st.currentUncompressedPos + 1) st
          (offset.toNat - st.currentUncompressedPos))) := by
    simp only [seekSet]
    rw [if_neg hoff, hst1, if_neg hB,
      getJC_state hg.fullyInit offset.toNat, hjc1]
  obtain ⟨k, hk, hu, hcoff, huoff⟩ :=
    getJC_coord hg.fullyInit hg.jt_rec offset.toNat
  rw [hjc1] at hcoff huoff
  by_cases hid : offset.toNat = st.currentUncompressedPos
  · rw [if_pos hid] at hred
    exact ⟨st, hred, hg, hid.symm, rfl, rfl, rfl, rfl, rfl⟩
  · rw [if_neg hid] at hred
    by_cases hcond : st.jc.compressedOffset ≠ jc1.compressedOffset ∨
        offset.toNat < st.currentUncompressedPos
    · rw [if_pos hcond] at hred
      set st2 : Context := { st with
        jc := jc1,
        inBuffOff := jc1.compressedOffset,
        currentUncompressedPos := offset.toNat,
        currentCompressedPos := jc1.compressedOffset,
        tmpOutBuffPos := 0,
        inputBaseOff := jc1.compressedOffset, inputSize := 0,
        inputPos := 0, staging := [], sessionPos := 0 } with hst2
      have hrest : restBytes st2 =
          (groundTruth st.src).drop (uStart st.src.frames k) := by
        unfold restBytes
        rw [if_neg (show ¬ st2.inputPos < st2.inputSize from lt_irrefl 0)]
        show joinFromC st.src jc1.compressedOffset = _
        rw [hcoff]
        exact @recOK_joinFromC st.src hg.frames_pos
          ⟨cStart st.src.frames k, uStart st.src.frames k⟩ ⟨k, hk, rfl, rfl⟩
      have hpend2 : pendingOf st2 = [] := rfl
      have hrlen : (restBytes st2).length =
          totalU st.src - uStart st.src.frames k := by
        rw [hrest, List.length_drop, groundTruth_length]
      refine ⟨st2, hred, ?_, rfl, rfl, rfl, rfl, rfl, rfl⟩
      refine ⟨hg.frames_pos, hg.fullyInit, hg.jt_rec, hg.jt_last,
        hg.cap_pos, hle, ?_, ?_, ?_, ?_, ?_⟩
      · show (0 : Nat) ≤ _
        exact Nat.zero_le _
      · intro _
        rfl
      · show jc1.uncompressedOffset ≤ (pendingOf st2).length +
          (restBytes st2).length
        rw [hpend2, hrlen, huoff]
        simp only [List.length_nil]
        omega
      · exact Or.inl ⟨rfl, rfl⟩
      · show (pendingOf st2 ++ restBytes st2).drop jc1.uncompressedOffset
          = (groundTruth st.src).drop offset.toNat
        rw [hpend2, List.nil_append, hrest, huoff, List.drop_drop,
          Nat.add_sub_cancel' hu]
    · rw [if_neg hcond] at hred
      have hge : st.currentUncompressedPos ≤ offset.toNat := by
        rcases not_or.mp hcond with ⟨_, h2⟩
        omega
      obtain ⟨st2, hsk, hg2, hcu2, hsrc2, hjt2, hfi2, hcap2, hmm2⟩ :=
        skipLoop_ok (offset.toNat - st.currentUncompressedPos + 1) st
          (offset.toNat - st.currentUncompressedPos) hg (by omega)
          (by omega)
      rw [hsk] at hred
      exact ⟨st2, hred, hg2, by omega, hsrc2, hjt2, hfi2, hcap2, hmm2⟩

/-! ### The created contexts are reachable and good -/

/-- `ZSTDSeek_create` on `srcA` yields exactly `ctxA`. -/
theorem createA : create srcA = some ctxA := by decide

/-- `ZSTDSeek_createWithoutJumpTable` on `srcA` yields exactly
`ctxL`. -/
theorem createL : createWithoutJumpTable srcA = some ctxL := by decide

/-- The fully initialized context on `srcA` is a good state. -/
theorem goodStA : GoodSt ctxA where
  frames_pos := by decide
  fullyInit := rfl
  jt_rec := by
    intro r hr
    simp only [ctxA, List.mem_cons, List.not_mem_nil, or_false] at hr
    rcases hr with rfl | rfl | rfl | rfl
    · exact ⟨0, by decide, by decide, by decide⟩
    · exact ⟨1, by decide, by decide, by decide⟩
    · exact ⟨2, by decide, by decide, by decide⟩
    · exact ⟨3, by decide, by decide, by decide⟩
  jt_last := by decide
  cap_pos := by decide
  cur_le := by decide
  cursor_le := by decide
  quota_pending := fun h => absurd h (by decide)
  quota_le := by decide
  decode := Or.inl ⟨rfl, rfl⟩
  stream := by decide

/-- `ZSTDSeek_seek` with `SEEK_SET` dispatches to the `SEEK_SET`
core. -/
theorem seekCtx_set (st : Context) (off : Int) :
    seekCtx st off seekSetOrigin = seekSet st off := by
  simp only [seekCtx]
  rw [if_neg (by decide : ¬ seekSetOrigin = seekCurOrigin),
    if_neg (by decide : ¬ seekSetOrigin = seekEndOrigin),
    if_pos trivial]

/-! ### The claims -/

/-- C8 (amended): every NULL-checked operation of the reader API
returns its sentinel on a NULL context and touches no state.
`ZSTDSeek_fileno` and `ZSTDSeek_jumpTableIsInitialized` are excluded:
they dereference the NULL pointer without a check (lines 563-565 and
226-228), so their NULL call has no defined result (see the
counterexample). -/
theorem claim_C8 :
    (∀ n, ZSTDSeek_read none n =
      ReadRes.ok 0 [] ZSTDSeek_read.default_ctx) ∧
    (∀ off org, ZSTDSeek_seek none off org = (-1, none)) ∧
    ZSTDSeek_tell none = -1 ∧
    ZSTDSeek_compressedTell none = -1 ∧
    ZSTDSeek_uncompressedFileSize none = (0, none) ∧
    ZSTDSeek_lastKnownUncompressedFileSize none = 0 ∧
    ZSTDSeek_getNumberOfFrames none = 0 ∧
    ZSTDSeek_isMultiframe none = false ∧
    ZSTDSeek_getJumpTableOfContext none = none ∧
    ZSTDSeek_free none = () :=
  ⟨fun _ => rfl, fun _ _ => rfl, rfl, rfl, rfl, rfl, rfl, rfl, rfl, rfl⟩

/-- C8 counterexample: `ZSTDSeek_fileno` and
`ZSTDSeek_jumpTableIsInitialized` have no NULL check in the C source;
the model accordingly assigns their NULL call no defined result, so the
claim that every exposed operation checks NULL is false. -/
theorem claim_C8_cex : ZSTDSeek_fileno none = none ∧
    ZSTDSeek_jumpTableIsInitialized none = none := ⟨rfl, rfl⟩

/-- C4: on a good state, `SEEK_SET` with a negative offset returns the
NegativeSeek error and with an offset beyond the uncompressed size
returns the BeyondEnd error, in both cases returning the context
unchanged (in particular positions, jump coordinate and session). -/
theorem claim_C4 (st : Context) (off : Int) (hg : GoodSt st) :
    (off < 0 → seekCtx st off seekSetOrigin = (errNegativeSeek, st)) ∧
    (0 < off → (totalU st.src : Int) < off →
      seekCtx st off seekSetOrigin = (errBeyondEndSeek, st)) := by
  constructor
  · intro h
    rw [seekCtx_set]
    simp only [seekSet]
    rw [if_pos h]
  · intro h1 h2
    have hoff : ¬ off < 0 := by omega
    have hst1 : (if off > 0 then (getJumpCoordinate st
        (st.currentUncompressedPos + off.toNat)).2 else st) = st := by
      rw [if_pos h1]
      exact getJC_state hg.fullyInit _
    have hBB : off > 0 ∧ off.toNat > lastKnownSize st := by
      refine ⟨h1, ?_⟩
      rw [hg.jt_last]
      omega
    rw [seekCtx_set]
    simp only [seekSet]
    rw [if_neg hoff, hst1, if_pos hBB]

theorem claim_C4_wit :
    seekCtx ctxA (-1) seekSetOrigin = (errNegativeSeek, ctxA) ∧
    seekCtx ctxA 7 seekSetOrigin = (errBeyondEndSeek, ctxA) :=
  ⟨(claim_C4 ctxA (-1) goodStA).1 (by decide),
   (claim_C4 ctxA 7 goodStA).2 (by decide) (by decide)⟩

/-- C5: in the drain step, the quota is consumed before any byte is
copied out: when the staging buffer is larger than the quota, exactly
`min (filled - cursor - quota) requested` bytes are copied from offset
`cursor + quota`, the cursor advances by the copied count plus the
quota, and the quota becomes zero; otherwise the whole buffer is
discarded, the filled amount is subtracted from the quota, and nothing
is delivered.  (Reachability: a positive quota entails a reset staging
cursor.) -/
theorem claim_C5 (st : Context) (toRead : Nat) (acc : List Nat)
    (hheld : st.tmpOutBuffPos < st.staging.length)
    (hreach : 0 < st.jc.uncompressedOffset → st.tmpOutBuffPos = 0) :
    (st.jc.uncompressedOffset < st.staging.length →
      drainQuota st toRead acc = ({ st with
          currentUncompressedPos := st.currentUncompressedPos +
            min (st.staging.length - st.tmpOutBuffPos -
              st.jc.uncompressedOffset) toRead,
          tmpOutBuffPos := st.tmpOutBuffPos +
            min (st.staging.length - st.tmpOutBuffPos -
              st.jc.uncompressedOffset) toRead + st.jc.uncompressedOffset,
          jc := { st.jc with uncompressedOffset := 0 } },
        toRead - min (st.staging.length - st.tmpOutBuffPos -
          st.jc.uncompressedOffset) toRead,
        acc ++ sliceL st.staging
          (st.tmpOutBuffPos + st.jc.uncompressedOffset)
          (min (st.staging.length - st.tmpOutBuffPos -
            st.jc.uncompressedOffset) toRead))) ∧
    (st.staging.length ≤ st.jc.uncompressedOffset →
      ∃ st2, drainQuota st toRead acc = (st2, toRead, acc) ∧
        st2.jc.uncompressedOffset =
          st.jc.uncompressedOffset - st.staging.length ∧
        st2.currentUncompressedPos = st.currentUncompressedPos ∧
        st2.staging = st.staging) := by
  constructor
  · intro hlt
    exact drainQuota_eq_A st toRead acc (by omega)
  · intro hge
    by_cases hgt : st.jc.uncompressedOffset > st.staging.length
    · exact ⟨_, drainQuota_eq_B st toRead acc hgt, rfl, rfl, rfl⟩
    · have heq : st.jc.uncompressedOffset = st.staging.length := by omega
      have hc0 : st.tmpOutBuffPos = 0 := hreach (by omega)
      have hmax : st.staging.length - st.tmpOutBuffPos -
          st.jc.uncompressedOffset = 0 := by omega
      refine ⟨{ st with
          tmpOutBuffPos := st.tmpOutBuffPos + st.jc.uncompressedOffset,
          jc := { st.jc with uncompressedOffset := 0 } }, ?_, by
        show (0 : Nat) = st.jc.uncompressedOffset - st.staging.length
        omega, rfl, rfl⟩
      rw [drainQuota_eq_A st toRead acc hgt, hmax]
      simp [sliceL]

theorem claim_C5_wit : drainQuota ctxW 2 [] =
    ({ ctxW with
        currentUncompressedPos := 2,
        tmpOutBuffPos := 3,
        jc := { ctxW.jc with uncompressedOffset := 0 } }, 0, [8, 7]) := by
  have h := (claim_C5 ctxW 2 [] (by decide)
    (fun h => absurd h (by decide))).1 (by decide)
  exact h.trans (by decide)

/-- C2: on a good state, seeking to any in-range non-negative position
`p` with `SEEK_SET` succeeds, and `tell` immediately afterwards returns
`p` (this covers the identity, reset and skip-forward paths). -/
theorem claim_C2 (st : Context) (p : Int) (hg : GoodSt st) (hnn : 0 ≤ p)
    (hle : p.toNat ≤ totalU st.src) :
    ∃ st2, seekCtx st p seekSetOrigin = (0, st2) ∧ tellCtx st2 = p := by
  obtain ⟨st2, hs, _, hcu, _, _, _, _, _⟩ := seekSet_ok st p hg hnn hle
  refine ⟨st2, ?_, ?_⟩
  · rw [seekCtx_set, hs]
  · unfold tellCtx
    rw [hcu]
    omega

theorem claim_C2_wit : ∃ st2,
    seekCtx ctxA 4 seekSetOrigin = (0, st2) ∧ tellCtx st2 = 4 :=
  claim_C2 ctxA 4 goodStA (by decide) (by decide)

/-- C1 (amended): on a context whose jump table is fully initialized
(a good state), for `p + n` within the uncompressed size, `seek(p,
SEEK_SET)` returns 0 and the following `read(n)` returns `n` and
delivers exactly bytes `[p, p+n)` of the ground-truth uncompressed
stream.  On a lazily indexed context the read is instead capped at the
last known uncompressed size (see the counterexample). -/
theorem claim_C1 (st : Context) (p n : Nat) (hg : GoodSt st)
    (hpn : p + n ≤ totalU st.src) :
    ∃ st1 st2, seekCtx st ((p : Nat) : Int) seekSetOrigin = (0, st1) ∧
      readCtx st1 n =
        ReadRes.ok n (sliceL (groundTruth st.src) p n) st2 := by
  obtain ⟨st1, hs, hg1, hcu1, hsrc1, _, _, _, _⟩ :=
    seekSet_ok st ((p : Nat) : Int) hg (by omega) (by
      rw [Int.toNat_natCast]
      omega)
  rw [Int.toNat_natCast] at hcu1
  obtain ⟨st2, hre, _, _, _, _, _, _⟩ := readCtx_ok st1 n hg1
  rw [hsrc1, hcu1, (by omega : min (totalU st.src - p) n = n)] at hre
  exact ⟨st1, st2, by rw [seekCtx_set, hs], hre⟩

/-- C1 counterexample: on the lazily indexed context `ctxL` (reachable
by `ZSTDSeek_createWithoutJumpTable` on `srcA`), `seek(1, SEEK_SET)`
returns 0, `1 + 5` is within the uncompressed size 6, yet the following
`read(5)` returns 1 byte, not 5: the read is capped at the last known
uncompressed size of the partially built jump table. -/
theorem claim_C1_cex :
    createWithoutJumpTable srcA = some ctxL ∧
    (seekCtx ctxL 1 seekSetOrigin).1 = 0 ∧
    1 + 5 ≤ totalU ctxL.src ∧
    readCount (seekCtx ctxL 1 seekSetOrigin).2 5 = 1 ∧
    readBytes (seekCtx ctxL 1 seekSetOrigin).2 5 = [66] := by decide

theorem claim_C1_wit : ∃ st1 st2,
    seekCtx ctxA ((2 : Nat) : Int) seekSetOrigin = (0, st1) ∧
    readCtx st1 3 =
      ReadRes.ok 3 (sliceL (groundTruth ctxA.src) 2 3) st2 :=
  claim_C1 ctxA 2 3 goodStA (by decide)

/-- C9 (amended): on a good state, `read(n)` returns
`min (remaining) n` bytes: a count strictly below `n` happens exactly
when the end of the uncompressed stream is reached, and at end of
stream the read returns 0 and the position is unchanged.  On a lazily
indexed context a short read can also happen mid-stream (see the
counterexample). -/
theorem claim_C9 (st : Context) (n : Nat) (hg : GoodSt st) :
    ∃ cnt out st2, readCtx st n = ReadRes.ok cnt out st2 ∧ cnt ≤ n ∧
      (cnt < n → st.currentUncompressedPos + cnt = totalU st.src) ∧
      (st.currentUncompressedPos = totalU st.src →
        cnt = 0 ∧ st2.currentUncompressedPos =
          st.currentUncompressedPos) := by
  obtain ⟨st2, hre, hcu2, _, _, _, _, _⟩ := readCtx_ok st n hg
  have hcle := hg.cur_le
  refine ⟨_, _, st2, hre, min_le_right _ _, ?_, ?_⟩
  · intro hlt
    omega
  · intro hend
    constructor
    · omega
    · rw [hcu2]
      omega

/-- C9 counterexample: on the lazily indexed context `ctxL` (reachable
by `ZSTDSeek_createWithoutJumpTable` on `srcA`), `read(3)` returns 2
through the normal exit although the position afterwards (2) is still
strictly inside the uncompressed stream (size 6): a short read that is
neither end-of-stream nor an error. -/
theorem claim_C9_cex :
    createWithoutJumpTable srcA = some ctxL ∧
    readOk ctxL 3 = true ∧ readCount ctxL 3 = 2 ∧ 2 < 3 ∧
    ctxL.currentUncompressedPos + 2 < totalU ctxL.src := by decide

theorem claim_C9_wit : ∃ cnt out st2,
    readCtx ctxA 10 = ReadRes.ok cnt out st2 ∧ cnt ≤ 10 ∧
    (cnt < 10 → ctxA.currentUncompressedPos + cnt = totalU ctxA.src) ∧
    (ctxA.currentUncompressedPos = totalU ctxA.src →
      cnt = 0 ∧ st2.currentUncompressedPos =
        ctxA.currentUncompressedPos) :=
  claim_C9 ctxA 10 goodStA

/-- C10 (amended): on a good state the identity seek
`seek(tell(), SEEK_SET)` returns 0 and returns the context literally
unchanged, so every subsequent read behaves as if it had not happened.
On a lazily indexed context the identity seek can extend the jump
table and thereby change what later reads return (see the
counterexample). -/
theorem claim_C10 (st : Context) (hg : GoodSt st) :
    seekCtx st (tellCtx st) seekSetOrigin = (0, st) := by
  rw [seekCtx_set]
  have htell : tellCtx st = (st.currentUncompressedPos : Int) := rfl
  rw [htell]
  have hoff : ¬ (st.currentUncompressedPos : Int) < 0 := by omega
  have hst1 : (if (st.currentUncompressedPos : Int) > 0 then
      (getJumpCoordinate st (st.currentUncompressedPos +
        (st.currentUncompressedPos : Int).toNat)).2 else st) = st := by
    by_cases hp : (st.currentUncompressedPos : Int) > 0
    · rw [if_pos hp]
      exact getJC_state hg.fullyInit _
    · rw [if_neg hp]
  have hB : ¬ ((st.currentUncompressedPos : Int) > 0 ∧
      (st.currentUncompressedPos : Int).toNat > lastKnownSize st) := by
    rintro ⟨_, hb⟩
    rw [hg.jt_last] at hb
    have := hg.cur_le
    omega
  simp only [seekSet]
  rw [if_neg hoff, hst1, if_neg hB,
    if_pos (by omega : (st.currentUncompressedPos : Int).toNat =
      st.currentUncompressedPos)]

/-- C10 counterexample: on the lazily indexed state `stL2` (reachable
by two reads on `ctxL`; position 3), the identity seek
`seek(tell(), SEEK_SET)` returns 0, but it extends the jump table, and
the next `read(2)` returns `[68, 69]` where without the seek it
returns `[68]`: the identity seek is observable. -/
theorem claim_C10_cex :
    tellCtx stL2 = 3 ∧
    (seekCtx stL2 3 seekSetOrigin).1 = 0 ∧
    readBytes stL2 2 = [68] ∧
    readBytes (seekCtx stL2 3 seekSetOrigin).2 2 = [68, 69] := by decide

theorem claim_C10_wit :
    seekCtx ctxA (tellCtx ctxA) seekSetOrigin = (0, ctxA) :=
  claim_C10 ctxA goodStA

/-! ### Monotonicity of scan-built jump tables -/

theorem recLt_trans {a b c : JTRecord} (h1 : RecLt a b) (h2 : RecLt b c) :
    RecLt a c := ⟨lt_trans h1.1 h2.1, lt_trans h1.2 h2.2⟩

instance : IsTrans JTRecord RecLt := ⟨fun _ _ _ => recLt_trans⟩

/-- Appending a record past the last one keeps the chain. -/
theorem chain'_append_last (jt : List JTRecord) (r : JTRecord)
    (hch : List.Chain' RecLt jt)
    (h : ∀ a, jt.getLast? = some a → RecLt a r) :
    List.Chain' RecLt (jt ++ [r]) := by
  rw [List.chain'_append]
  refine ⟨hch, List.chain'_singleton _, ?_⟩
  intro x hx y hy
  simp at hy
  subst hy
  exact h x hx

/-- In a strictly increasing table every record is the last one or
strictly before it. -/
theorem chain_le_last : ∀ (jt : List JTRecord),
    List.Chain' RecLt jt → ∀ a ∈ jt, ∀ b, jt.getLast? = some b →
      a = b ∨ RecLt a b := by
  intro jt
  induction jt with
  | nil =>
      intro _ a ha
      simp at ha
  | cons x t ih =>
      intro h a ha b hb
      cases t with
      | nil =>
          rw [List.getLast?_singleton] at hb
          simp at ha hb
          subst ha
          subst hb
          exact Or.inl rfl
      | cons y t2 =>
          rw [List.getLast?_cons_cons] at hb
          have hc := List.chain'_cons.mp h
          rcases List.mem_cons.mp ha with rfl | ha2
          · rcases ih hc.2 y (List.mem_cons_self y t2) b hb with rfl | hyb
            · exact Or.inr hc.1
            · exact Or.inr (recLt_trans hc.1 hyb)
          · exact ih hc.2 a ha2 b hb

/-- One scan pass keeps the table strictly increasing, with every
record bounded by the running positions (strict in `compressedPos`
whenever strictly below in `uncompressedPos`); the returned final
positions bound the result the same way. -/
theorem scanLoop_chain : ∀ (fs : List Frame) (cPos uPos : Nat)
    (jt : List JTRecord) (up : Nat),
    (∀ f ∈ fs, 0 < f.clen) →
    List.Chain' RecLt jt →
    (∀ a ∈ jt, a.compressedPos ≤ cPos ∧ a.uncompressedPos ≤ uPos ∧
      (a.uncompressedPos < uPos → a.compressedPos < cPos)) →
    List.Chain' RecLt (scanLoop fs cPos uPos jt up).1 ∧
    (∀ a ∈ (scanLoop fs cPos uPos jt up).1,
      a.compressedPos ≤ (scanLoop fs cPos uPos jt up).2.2.1 ∧
      a.uncompressedPos ≤ (scanLoop fs cPos uPos jt up).2.2.2 ∧
      (a.uncompressedPos < (scanLoop fs cPos uPos jt up).2.2.2 →
        a.compressedPos < (scanLoop fs cPos uPos jt up).2.2.1)) := by
  intro fs
  induction fs with
  | nil =>
      intro cPos uPos jt up _ hch hinv
      exact ⟨hch, hinv⟩
  | cons f rest ih =>
      intro cPos uPos jt up hpos hch hinv
      have hf : 0 < f.clen := hpos f (List.mem_cons_self f rest)
      have hpos' : ∀ g ∈ rest, 0 < g.clen :=
        fun g hg => hpos g (List.mem_cons_of_mem f hg)
      set jt1 := if jt = [] ∨
          (jt.getLast?.getD ⟨0, 0⟩).uncompressedPos < uPos
        then jt ++ [⟨cPos, uPos⟩] else jt with hjt1
      have hch1 : List.Chain' RecLt jt1 := by
        rw [hjt1]
        by_cases hc : jt = [] ∨
            (jt.getLast?.getD ⟨0, 0⟩).uncompressedPos < uPos
        · rw [if_pos hc]
          refine chain'_append_last jt _ hch ?_
          intro a ha
          have hmem := List.mem_of_mem_getLast? ha
          have hb := hinv a hmem
          rcases hc with hc | hc
          · subst hc
            simp at hmem
          · rw [ha] at hc
            simp at hc
            exact ⟨hb.2.2 hc, hc⟩
        · rw [if_neg hc]
          exact hch
      have hinv1 : ∀ a ∈ jt1, a.compressedPos ≤ cPos + f.clen ∧
          a.uncompressedPos ≤ uPos + f.content.length ∧
          (a.uncompressedPos < uPos + f.content.length →
            a.compressedPos < cPos + f.clen) := by
        intro a ha
        have hmem : a ∈ jt ∨ a = ⟨cPos, uPos⟩ := by
          rw [hjt1] at ha
          by_cases hc : jt = [] ∨
              (jt.getLast?.getD ⟨0, 0⟩).uncompressedPos < uPos
          · rw [if_pos hc] at ha
            rcases List.mem_append.mp ha with h | h
            · exact Or.inl h
            · simp at h
              exact Or.inr h
          · rw [if_neg hc] at ha
            exact Or.inl ha
        rcases hmem with hmem | rfl
        · have hb := hinv a hmem
          exact ⟨by omega, by omega, fun _ => by omega⟩
        · refine ⟨?_, ?_, fun _ => ?_⟩
          · show cPos ≤ cPos + f.clen
            omega
          · show uPos ≤ uPos + f.content.length
            omega
          · show cPos < cPos + f.clen
            omega
      have hstep : scanLoop (f :: rest) cPos uPos jt up =
          if uPos + f.content.length ≥ up
          then (jt1, false, cPos + f.clen, uPos + f.content.length)
          else scanLoop rest (cPos + f.clen) (uPos + f.content.length)
            jt1 up := by
        simp only [scanLoop]
      by_cases hstop : uPos + f.content.length ≥ up
      · rw [hstep, if_pos hstop]
        exact ⟨hch1, hinv1⟩
      · rw [hstep, if_neg hstop]
        exact ih (cPos + f.clen) (uPos + f.content.length) jt1 up
          hpos' hch1 hinv1

/-- The linear-scan strategy keeps the table strictly increasing in
both coordinates, starting from any strictly increasing table. -/
theorem linearScanPart_chain (st : Context) (up : Nat)
    (hpos : ∀ f ∈ st.src.frames, 0 < f.clen)
    (hch : List.Chain' RecLt st.jt) :
    List.Chain' RecLt ((linearScanPart st up).2).jt := by
  set c0 := (st.jt.getLast?.getD ⟨0, 0⟩).compressedPos with hc0
  set u0 := (st.jt.getLast?.getD ⟨0, 0⟩).uncompressedPos with hu0
  have hinv0 : ∀ a ∈ st.jt, a.compressedPos ≤ c0 ∧
      a.uncompressedPos ≤ u0 ∧
      (a.uncompressedPos < u0 → a.compressedPos < c0) := by
    intro a ha
    cases hl : st.jt.getLast? with
    | none =>
        rw [List.getLast?_eq_none_iff] at hl
        rw [hl] at ha
        simp at ha
    | some b =>
        have hcb : c0 = b.compressedPos := by
          rw [hc0, hl]
          rfl
        have hub : u0 = b.uncompressedPos := by
          rw [hu0, hl]
          rfl
        rcases chain_le_last st.jt hch a ha b hl with rfl | hab
        · rw [hcb, hub]
          exact ⟨le_refl _, le_refl _, fun hlt => absurd hlt (lt_irrefl _)⟩
        · rw [hcb, hub]
          exact ⟨le_of_lt hab.1, le_of_lt hab.2, fun _ => hab.1⟩
  set rem := (match frameIdxAt st.src.frames c0 with
    | some k => st.src.frames.drop k
    | none => []) with hrem
  have hposr : ∀ f ∈ rem, 0 < f.clen := by
    intro f hf
    rw [hrem] at hf
    rcases hk : frameIdxAt st.src.frames c0 with _ | k
    · rw [hk] at hf
      simp at hf
    · rw [hk] at hf
      exact hpos f (List.mem_of_mem_drop hf)
  obtain ⟨hchS, hinvS⟩ := scanLoop_chain rem c0 u0 st.jt up hposr hch hinv0
  have hout : (linearScanPart st up).2.jt =
      (if (scanLoop rem c0 u0 st.jt up).1 = []
        then (scanLoop rem c0 u0 st.jt up).1
        else if ((scanLoop rem c0 u0 st.jt up).1.getLast?.getD
            ⟨0, 0⟩).uncompressedPos < (scanLoop rem c0 u0 st.jt up).2.2.2
          then (scanLoop rem c0 u0 st.jt up).1 ++
            [⟨(scanLoop rem c0 u0 st.jt up).2.2.1,
              (scanLoop rem c0 u0 st.jt up).2.2.2⟩]
          else (scanLoop rem c0 u0 st.jt up).1) := by
    simp only [linearScanPart]
    rw [← hc0, ← hu0, ← hrem]
    by_cases he : (scanLoop rem c0 u0 st.jt up).1 = []
    · rw [if_pos he, if_pos he]
    · rw [if_neg he, if_neg he]
  rw [hout]
  by_cases he : (scanLoop rem c0 u0 st.jt up).1 = []
  · rw [if_pos he]
    exact hchS
  · rw [if_neg he]
    by_cases ht : ((scanLoop rem c0 u0 st.jt up).1.getLast?.getD
        ⟨0, 0⟩).uncompressedPos < (scanLoop rem c0 u0 st.jt up).2.2.2
    · rw [if_pos ht]
      refine chain'_append_last _ _ hchS ?_
      intro a ha
      have hb := hinvS a (List.mem_of_mem_getLast? ha)
      rw [ha] at ht
      simp at ht
      exact ⟨hb.2.2 ht, ht⟩
    · rw [if_neg ht]
      exact hchS

/-- C3 (amended): a jump table built or extended by the linear scan
(the path taken whenever the image carries no well-formed seekable
trailer) is strictly increasing in both `compressedPos` and
`uncompressedPos`: starting from any strictly increasing table — in
particular the empty table of a fresh context — the property is
preserved, so it holds at every point of such a table's lifecycle.
Importing a seekable trailer can instead produce records with equal
`uncompressedPos` (see the counterexample). -/
theorem claim_C3 (st : Context) (up : Nat)
    (hpos : ∀ f ∈ st.src.frames, 0 < f.clen)
    (hch : List.Chain' RecLt st.jt)
    (hscan : ¬ (seekMagicOK st.src ∧ reservedOK st.src ∧
      skipMagicOK st.src ∧ sizeMatchOK st.src)) :
    List.Pairwise RecLt ((initJumpTableUpUntilPos st up).2).jt := by
  rw [← List.chain'_iff_pairwise]
  have : initJumpTableUpUntilPos st up = linearScanPart st up := by
    simp only [initJumpTableUpUntilPos]
    rw [if_neg hscan]
  rw [this]
  exact linearScanPart_chain st up hpos hch

/-- C3 counterexample: creating a context on `srcZ` (whose well-formed
seekable trailer lists a frame of uncompressed size 0) imports the
trailer; the resulting reachable table has records ⟨10,4⟩ and ⟨19,4⟩
with equal `uncompressedPos`, so strict monotonicity fails. -/
theorem claim_C3_cex :
    jtOfCreate srcZ = [⟨0, 0⟩, ⟨10, 4⟩, ⟨19, 4⟩] ∧
    ¬ ((⟨10, 4⟩ : JTRecord).uncompressedPos <
       (⟨19, 4⟩ : JTRecord).uncompressedPos) := by decide

theorem claim_C3_wit : List.Pairwise RecLt
    ((initJumpTableUpUntilPos ctxB 100).2).jt :=
  claim_C3 ctxB 100 (by decide) (by decide) (by decide)

/-! ### Seekable-trailer import -/

theorem readU32_append_right (l1 l2 : List Nat) (off : Nat)
    (h : l1.length ≤ off) :
    readU32 (l1 ++ l2) off = readU32 l2 (off - l1.length) := by
  unfold readU32
  rw [List.getD_append_right l1 l2 0 off h,
    List.getD_append_right l1 l2 0 (off + 1) (by omega),
    List.getD_append_right l1 l2 0 (off + 2) (by omega),
    List.getD_append_right l1 l2 0 (off + 3) (by omega),
    show off + 1 - l1.length = off - l1.length + 1 by omega,
    show off + 2 - l1.length = off - l1.length + 2 by omega,
    show off + 3 - l1.length = off - l1.length + 3 by omega]

theorem readU32_enc32 (v : Nat) (rest : List Nat) (hv : v < 2 ^ 32) :
    readU32 (enc32 v ++ rest) 0 = v := by
  simp only [readU32, enc32, List.cons_append, List.nil_append,
    List.getD_cons_zero, List.getD_cons_succ]
  omega

theorem enc32_length (v : Nat) : (enc32 v).length = 4 := rfl

theorem entryBytes_length (e : Nat × Nat) : (entryBytes e).length = 8 :=
  rfl

theorem entriesFlat_length (es : List (Nat × Nat)) :
    ((es.map entryBytes).flatten).length = 8 * es.length := by
  induction es with
  | nil => rfl
  | cons e r ih =>
      rw [List.map_cons, List.flatten_cons, List.length_append, ih,
        entryBytes_length, List.length_cons]
      omega

theorem seekTableFrame_length (es : List (Nat × Nat)) :
    (seekTableFrame es).length = 8 * es.length + 17 := by
  simp only [seekTableFrame, List.length_append, enc32_length,
    entriesFlat_length, List.length_cons, List.length_nil]
  omega

/-- Reading entry `j` of the encoded entry block. -/
theorem flat_read : ∀ (es : List (Nat × Nat)) (rest : List Nat) (j : Nat),
    j < es.length → (∀ e ∈ es, e.1 < 2 ^ 32 ∧ e.2 < 2 ^ 32) →
    readU32 ((es.map entryBytes).flatten ++ rest) (8 * j) =
      (es.getD j (0, 0)).1 ∧
    readU32 ((es.map entryBytes).flatten ++ rest) (8 * j + 4) =
      (es.getD j (0, 0)).2 := by
  intro es
  induction es with
  | nil =>
      intro rest j hj _
      simp at hj
  | cons e r ih =>
      intro rest j hj hb
      have he := hb e (List.mem_cons_self e r)
      rw [List.map_cons, List.flatten_cons, List.append_assoc]
      cases j with
      | zero =>
          rw [List.getD_cons_zero]
          constructor
          · show readU32 (entryBytes e ++ _) (8 * 0) = e.1
            rw [show 8 * 0 = 0 by omega, entryBytes, List.append_assoc]
            exact readU32_enc32 e.1 _ he.1
          · show readU32 (entryBytes e ++ _) (8 * 0 + 4) = e.2
            rw [show 8 * 0 + 4 = 4 by omega, entryBytes,
              List.append_assoc,
              readU32_append_right (enc32 e.1) _ 4 (by rw [enc32_length]),
              show 4 - (enc32 e.1).length = 0 by rw [enc32_length]]
            exact readU32_enc32 e.2 _ he.2
      | succ j' =>
          have hj' : j' < r.length := by
            rw [List.length_cons] at hj
            omega
          have hb' : ∀ x ∈ r, x.1 < 2 ^ 32 ∧ x.2 < 2 ^ 32 :=
            fun x hx => hb x (List.mem_cons_of_mem e hx)
          have hlen8 : (entryBytes e).length ≤ 8 * (j' + 1) := by
            rw [entryBytes_length]
            omega
          rw [List.getD_cons_succ]
          constructor
          · rw [readU32_append_right (entryBytes e) _ (8 * (j' + 1))
              hlen8,
              show 8 * (j' + 1) - (entryBytes e).length = 8 * j' by
                rw [entryBytes_length]; omega]
            exact (ih rest j' hj' hb').1
          · rw [readU32_append_right (entryBytes e) _ (8 * (j' + 1) + 4)
              (by omega),
              show 8 * (j' + 1) + 4 - (entryBytes e).length = 8 * j' + 4 by
                rw [entryBytes_length]; omega]
            exact (ih rest j' hj' hb').2

/-- All four trailer checks pass on a well-formed encoded image, and
the parsed fields are the encoded ones. -/
theorem trailer_checks (src : Source) (body : List Nat)
    (frames : List Frame) (entries : List (Nat × Nat))
    (hsrc : src = ⟨body ++ seekTableFrame entries, frames⟩)
    (hn : 8 * entries.length + 17 < 2 ^ 32)
    (hent : ∀ e ∈ entries, e.1 < 2 ^ 32 ∧ e.2 < 2 ^ 32) :
    seekMagicOK src ∧ reservedOK src ∧ skipMagicOK src ∧
    sizeMatchOK src ∧ numFramesField src = entries.length ∧
    sizePerEntry src = 8 ∧ trailerOff src = body.length ∧
    (∀ j, j < entries.length →
      readU32 src.bytes (trailerOff src + 8 + 8 * j) =
        (entries.getD j (0, 0)).1 ∧
      readU32 src.bytes (trailerOff src + 8 + 8 * j + 4) =
        (entries.getD j (0, 0)).2) := by
  subst hsrc
  set n := entries.length with hn0
  have hblen : (body ++ seekTableFrame entries).length =
      body.length + (8 * n + 17) := by
    rw [List.length_append, seekTableFrame_length]
  have hfoot : footerOff ⟨body ++ seekTableFrame entries, frames⟩ =
      body.length + (8 * n + 8) := by
    show (body ++ seekTableFrame entries).length - 9 = _
    rw [hblen]
    omega
  -- descriptor byte: the single 0 before the footer magic
  have hsplit0 : body ++ seekTableFrame entries =
      (body ++ (enc32 0x184D2A5E ++ (enc32 (8 * n + 9) ++
        ((entries.map entryBytes).flatten ++ enc32 n)))) ++
      ([0] ++ enc32 0x8F92EAB1) := by
    simp [seekTableFrame, List.append_assoc]
  have hlen0 : (body ++ (enc32 0x184D2A5E ++ (enc32 (8 * n + 9) ++
      ((entries.map entryBytes).flatten ++ enc32 n)))).length =
      body.length + (8 * n + 12) := by
    simp only [List.length_append, enc32_length, entriesFlat_length]
    omega
  have hsfd : sfdByte ⟨body ++ seekTableFrame entries, frames⟩ = 0 := by
    show (body ++ seekTableFrame entries).getD _ 0 = 0
    rw [hfoot, hsplit0,
      List.getD_append_right _ _ 0 _ (by rw [hlen0]; omega),
      show body.length + (8 * n + 8) + 4 -
        (body ++ (enc32 0x184D2A5E ++ (enc32 (8 * n + 9) ++
          ((entries.map entryBytes).flatten ++ enc32 n)))).length = 0 by
        rw [hlen0]; omega]
    rfl
  have hflag : checksumFlag ⟨body ++ seekTableFrame entries, frames⟩ = 0 := by
    unfold checksumFlag
    rw [hsfd]
  have hspe : sizePerEntry ⟨body ++ seekTableFrame entries, frames⟩ = 8 := by
    unfold sizePerEntry
    rw [hflag]
    simp
  have hmagic : seekMagicOK ⟨body ++ seekTableFrame entries, frames⟩ := by
    show readU32 (body ++ seekTableFrame entries) _ = _
    rw [hfoot, hsplit0, List.append_assoc,
      readU32_append_right body _ _ (by omega),
      show body.length + (8 * n + 8) + 5 - body.length =
        (enc32 0x184D2A5E ++ (enc32 (8 * n + 9) ++
          ((entries.map entryBytes).flatten ++ enc32 n))).length + 1 by
        simp only [List.length_append, enc32_length, entriesFlat_length]
        omega,
      readU32_append_right _ _ _ (by omega),
      show (enc32 0x184D2A5E ++ (enc32 (8 * n + 9) ++
          ((entries.map entryBytes).flatten ++ enc32 n))).length + 1 -
        (enc32 0x184D2A5E ++ (enc32 (8 * n + 9) ++
          ((entries.map entryBytes).flatten ++ enc32 n))).length = 1 by
        omega]
    show readU32 (0 :: enc32 0x8F92EAB1) 1 = 0x8F92EAB1
    have : readU32 (0 :: enc32 0x8F92EAB1) 1 =
        readU32 (enc32 0x8F92EAB1 ++ []) 0 := by
      simp [readU32, List.getD_cons_succ]
    rw [this]
    exact readU32_enc32 _ _ (by norm_num)
  have hres : reservedOK ⟨body ++ seekTableFrame entries, frames⟩ := by
    show _ / 4 % 32 = 0
    rw [hsfd]
  have hnum : numFramesField ⟨body ++ seekTableFrame entries, frames⟩
      = n := by
    show readU32 (body ++ seekTableFrame entries) _ = n
    have hsplit1 : body ++ seekTableFrame entries =
        (body ++ (enc32 0x184D2A5E ++ (enc32 (8 * n + 9) ++
          (entries.map entryBytes).flatten))) ++
        (enc32 n ++ ([0] ++ enc32 0x8F92EAB1)) := by
      simp [seekTableFrame, List.append_assoc]
    have hlen1 : (body ++ (enc32 0x184D2A5E ++ (enc32 (8 * n + 9) ++
        (entries.map entryBytes).flatten))).length =
        body.length + (8 * n + 8) := by
      simp only [List.length_append, enc32_length, entriesFlat_length]
      omega
    rw [hfoot, hsplit1, readU32_append_right _ _ _ (by rw [hlen1]),
      show body.length + (8 * n + 8) -
        (body ++ (enc32 0x184D2A5E ++ (enc32 (8 * n + 9) ++
          (entries.map entryBytes).flatten))).length = 0 by
        rw [hlen1]; omega]
    exact readU32_enc32 _ _ (by omega)
  have htsf : tableSizeField ⟨body ++ seekTableFrame entries, frames⟩
      = 8 * n := by
    unfold tableSizeField
    rw [hnum, hspe]
    exact Nat.mod_eq_of_lt (by omega)
  have htfs : trailerFrameSize ⟨body ++ seekTableFrame entries, frames⟩
      = 8 * n + 17 := by
    unfold trailerFrameSize
    rw [htsf]
    exact Nat.mod_eq_of_lt (by omega)
  have hto : trailerOff ⟨body ++ seekTableFrame entries, frames⟩
      = body.length := by
    unfold trailerOff
    rw [htfs]
    show (body ++ seekTableFrame entries).length - (8 * n + 17) = _
    rw [hblen]
    omega
  have hskip : skipMagicOK ⟨body ++ seekTableFrame entries, frames⟩ := by
    show readU32 (body ++ seekTableFrame entries) _ = _
    rw [hto, readU32_append_right body _ _ (le_refl _), Nat.sub_self]
    show readU32 (seekTableFrame entries) 0 = _
    rw [seekTableFrame, List.append_assoc]
    exact readU32_enc32 _ _ (by norm_num)
  have hszread : readU32 (body ++ seekTableFrame entries)
      (body.length + 4) = 8 * n + 9 := by
    have hsplit2 : body ++ seekTableFrame entries =
        (body ++ enc32 0x184D2A5E) ++
        (enc32 (8 * n + 9) ++ ((entries.map entryBytes).flatten ++
          (enc32 n ++ ([0] ++ enc32 0x8F92EAB1)))) := by
      simp [seekTableFrame, List.append_assoc]
    rw [hsplit2, readU32_append_right _ _ _ (by
        simp only [List.length_append, enc32_length]
        omega),
      show body.length + 4 - (body ++ enc32 0x184D2A5E).length = 0 by
        simp only [List.length_append, enc32_length]
        omega]
    exact readU32_enc32 _ _ (by omega)
  have hsm : sizeMatchOK ⟨body ++ seekTableFrame entries, frames⟩ := by
    show (readU32 (body ++ seekTableFrame entries) _ + 8) % 2 ^ 32 = _
    rw [hto, hszread, htfs]
    exact Nat.mod_eq_of_lt (by omega)
  refine ⟨hmagic, hres, hskip, hsm, hnum, hspe, hto, ?_⟩
  intro j hj
  have hsplit3 : body ++ seekTableFrame entries =
      (body ++ (enc32 0x184D2A5E ++ enc32 (8 * n + 9))) ++
      ((entries.map entryBytes).flatten ++
        (enc32 n ++ ([0] ++ enc32 0x8F92EAB1))) := by
    simp [seekTableFrame, List.append_assoc]
  have hlen3 : (body ++ (enc32 0x184D2A5E ++ enc32 (8 * n + 9))).length =
      body.length + 8 := by
    simp only [List.length_append, enc32_length]
  constructor
  · rw [hto]
    show readU32 (body ++ seekTableFrame entries) _ = _
    rw [hsplit3, readU32_append_right _ _ _ (by rw [hlen3]; omega),
      show body.length + 8 + 8 * j -
        (body ++ (enc32 0x184D2A5E ++ enc32 (8 * n + 9))).length =
          8 * j by rw [hlen3]; omega]
    exact (flat_read entries _ j hj hent).1
  · rw [hto]
    show readU32 (body ++ seekTableFrame entries) _ = _
    rw [hsplit3, readU32_append_right _ _ _ (by rw [hlen3]; omega),
      show body.length + 8 + 8 * j + 4 -
        (body ++ (enc32 0x184D2A5E ++ enc32 (8 * n + 9))).length =
          8 * j + 4 by rw [hlen3]; omega]
    exact (flat_read entries _ j hj hent).2

theorem sumsFrom_split : ∀ (es : List (Nat × Nat)) (c u : Nat),
    sumsFrom c u es =
      frontSums c u es ++ [⟨endC c u es, endU c u es⟩] := by
  intro es
  induction es with
  | nil =>
      intro c u
      rfl
  | cons e r ih =>
      intro c u
      simp only [sumsFrom, frontSums, endC, endU, ih, List.cons_append]

/-- The import fold appends one running-sum record per entry and ends
on the accumulated totals. -/
theorem import_fold (src : Source) (hspe : sizePerEntry src = 8)
    (T : Nat) : ∀ (es : List (Nat × Nat)) (i : Nat)
    (jt0 : List JTRecord) (c u : Nat),
    (∀ j, j < es.length →
      readU32 src.bytes (T + (i + j) * 8) = (es.getD j (0, 0)).1 ∧
      readU32 src.bytes (T + (i + j) * 8 + 4) = (es.getD j (0, 0)).2) →
    (List.range' i es.length).foldl
      (fun acc k =>
        (acc.1 ++ [⟨acc.2.1, acc.2.2⟩],
         (acc.2.1 + readU32 src.bytes (T + k * sizePerEntry src)) % 2 ^ 32,
         (acc.2.2 + readU32 src.bytes (T + k * sizePerEntry src + 4)) %
           2 ^ 32))
      (jt0, c, u) =
    (jt0 ++ frontSums c u es, endC c u es, endU c u es) := by
  intro es
  induction es with
  | nil =>
      intro i jt0 c u _
      simp [frontSums, endC, endU]
  | cons e r ih =>
      intro i jt0 c u h
      have h0 := h 0 (by simp)
      rw [Nat.add_zero, List.getD_cons_zero] at h0
      have hr : ∀ j, j < r.length →
          readU32 src.bytes (T + (i + 1 + j) * 8) =
            (r.getD j (0, 0)).1 ∧
          readU32 src.bytes (T + (i + 1 + j) * 8 + 4) =
            (r.getD j (0, 0)).2 := by
        intro j hj
        have := h (j + 1) (by simp; omega)
        rwa [show i + (j + 1) = i + 1 + j by omega,
          List.getD_cons_succ] at this
      rw [List.length_cons, List.range'_succ, List.foldl_cons]
      show (List.range' (i + 1) r.length).foldl _
        (jt0 ++ [⟨c, u⟩],
         (c + readU32 src.bytes (T + i * sizePerEntry src)) % 2 ^ 32,
         (u + readU32 src.bytes (T + i * sizePerEntry src + 4)) % 2 ^ 32)
        = _
      have hi1 : (c + readU32 src.bytes (T + i * sizePerEntry src)) %
          2 ^ 32 = (c + e.1) % 2 ^ 32 := by rw [hspe, h0.1]
      have hi2 : (u + readU32 src.bytes (T + i * sizePerEntry src + 4)) %
          2 ^ 32 = (u + e.2) % 2 ^ 32 := by rw [hspe, h0.2]
      rw [hi1, hi2]
      refine (ih (i + 1) (jt0 ++ [⟨c, u⟩]) ((c + e.1) % 2 ^ 32)
        ((u + e.2) % 2 ^ 32) hr).trans ?_
      simp [frontSums, endC, endU, List.append_assoc]

/-- C6: on any image that is some body followed by a well-formed
seekable trailer (entry sizes and the table size in `uint32` range),
all four trailer checks pass and `ZSTDSeek_initializeJumpTable*`
imports the table: whatever the target position, it returns success,
marks the table fully initialized, and appends exactly one record per
entry holding the running sums of the entries' compressed and
uncompressed sizes from (0,0), then the sentinel of the accumulated
totals — without consulting the frames (the result does not depend on
`frames` or `up`, so no scan happens). -/
theorem claim_C6 (st : Context) (body : List Nat) (frames : List Frame)
    (entries : List (Nat × Nat))
    (hsrc : st.src = ⟨body ++ seekTableFrame entries, frames⟩)
    (hn : 8 * entries.length + 17 < 2 ^ 32)
    (hent : ∀ e ∈ entries, e.1 < 2 ^ 32 ∧ e.2 < 2 ^ 32) :
    (seekMagicOK st.src ∧ reservedOK st.src ∧ skipMagicOK st.src ∧
      sizeMatchOK st.src) ∧
    ∀ up, initJumpTableUpUntilPos st up =
      (0, { st with
        jt := st.jt ++ sumsFrom 0 0 entries,
        jumpTableFullyInit := true }) := by
  obtain ⟨hmagic, hres, hskip, hsm, hnum, hspe, hto, hread⟩ :=
    trailer_checks st.src body frames entries hsrc hn hent
  have himp : importTable st.src st.jt =
      st.jt ++ sumsFrom 0 0 entries := by
    simp only [importTable]
    rw [hnum, List.range_eq_range',
      import_fold st.src hspe (trailerOff st.src + 8) entries 0 st.jt 0 0
        (fun j hj => by
          have hr := hread j hj
          constructor
          · rw [show trailerOff st.src + 8 + (0 + j) * 8 =
              trailerOff st.src + 8 + 8 * j by omega]
            exact hr.1
          · rw [show trailerOff st.src + 8 + (0 + j) * 8 + 4 =
              trailerOff st.src + 8 + 8 * j + 4 by omega]
            exact hr.2),
      sumsFrom_split]
    simp [List.append_assoc]
  refine ⟨⟨hmagic, hres, hskip, hsm⟩, ?_⟩
  intro up
  simp only [initJumpTableUpUntilPos]
  rw [if_pos ⟨hmagic, hres, hskip, hsm⟩, himp]

theorem claim_C6_wit :
    (seekMagicOK ctxT.src ∧ reservedOK ctxT.src ∧ skipMagicOK ctxT.src ∧
      sizeMatchOK ctxT.src) ∧
    ∀ up, initJumpTableUpUntilPos ctxT up =
      (0, { ctxT with
        jt := ctxT.jt ++ sumsFrom 0 0 [(10, 4)],
        jumpTableFullyInit := true }) :=
  claim_C6 ctxT (List.replicate 10 0) [⟨10, [1, 2, 3, 4]⟩] [(10, 4)]
    rfl (by decide) (by decide)

/-- The scan never shrinks the table. -/
theorem scanLoop_len : ∀ (fs : List Frame) (c u : Nat)
    (jt : List JTRecord) (up : Nat),
    jt.length ≤ (scanLoop fs c u jt up).1.length := by
  intro fs
  induction fs with
  | nil =>
      intro c u jt up
      exact le_refl _
  | cons f rest ih =>
      intro c u jt up
      have h1 : jt.length ≤ (if jt = [] ∨
          (jt.getLast?.getD ⟨0, 0⟩).uncompressedPos < u
          then jt ++ [⟨c, u⟩] else jt).length := by
        by_cases hc : jt = [] ∨
            (jt.getLast?.getD ⟨0, 0⟩).uncompressedPos < u
        · rw [if_pos hc, List.length_append]
          omega
        · rw [if_neg hc]
      simp only [scanLoop]
      by_cases hstop : u + f.content.length ≥ up
      · rw [if_pos hstop]
        exact h1
      · rw [if_neg hstop]
        exact le_trans h1 (ih _ _ _ up)

/-- C7: when the footer carries the seekable magic but any of the three
remaining trailer checks fails (reserved bits, skippable magic, or the
embedded size), initialization falls through to the linear frame scan,
which still populates the jump table and succeeds: the malformed
trailer alone never fails the call.  (Hypotheses: a fresh table and a
frame starting at offset 0, as guaranteed by context creation.) -/
theorem claim_C7 (st : Context) (up : Nat)
    (hbad : ¬ reservedOK st.src ∨ ¬ skipMagicOK st.src ∨
      ¬ sizeMatchOK st.src)
    (hjt : st.jt = []) (hk : frameIdxAt st.src.frames 0 = some 0) :
    initJumpTableUpUntilPos st up = linearScanPart st up ∧
    ∃ ctx2, linearScanPart st up = (0, ctx2) ∧ ctx2.jt ≠ [] := by
  have hfall : initJumpTableUpUntilPos st up = linearScanPart st up := by
    simp only [initJumpTableUpUntilPos]
    rw [if_neg ?hnc]
    case hnc =>
      rintro ⟨_, h2, h3, h4⟩
      rcases hbad with h | h | h
      · exact h h2
      · exact h h3
      · exact h h4
  have hc0 : (st.jt.getLast?.getD ⟨0, 0⟩).compressedPos = 0 := by
    rw [hjt]
    rfl
  have hu0 : (st.jt.getLast?.getD ⟨0, 0⟩).uncompressedPos = 0 := by
    rw [hjt]
    rfl
  obtain ⟨f, rest, hfs⟩ : ∃ f rest, st.src.frames = f :: rest := by
    cases hfs : st.src.frames with
    | nil =>
        rw [hfs] at hk
        simp [frameIdxAt] at hk
    | cons f rest => exact ⟨f, rest, rfl⟩
  have hne : (scanLoop st.src.frames 0 0 [] up).1 ≠ [] := by
    rw [hfs]
    simp only [scanLoop]
    by_cases hstop : 0 + f.content.length ≥ up
    · rw [if_pos hstop]
      simp
    · rw [if_neg hstop, if_pos (Or.inl trivial)]
      have := scanLoop_len rest (0 + f.clen) (0 + f.content.length)
        ([] ++ [⟨0, 0⟩]) up
      intro hcon
      rw [hcon] at this
      simp at this
  refine ⟨hfall, ?_⟩
  have hred : linearScanPart st up =
      (if (scanLoop st.src.frames 0 0 [] up).1 = []
        then ((-1 : Int), { st with
          jt := (scanLoop st.src.frames 0 0 [] up).1,
          jumpTableFullyInit := (scanLoop st.src.frames 0 0 [] up).2.1 })
        else ((0 : Int), { st with
          jt := if ((scanLoop st.src.frames 0 0 [] up).1.getLast?.getD
              ⟨0, 0⟩).uncompressedPos <
              (scanLoop st.src.frames 0 0 [] up).2.2.2
            then (scanLoop st.src.frames 0 0 [] up).1 ++
              [⟨(scanLoop st.src.frames 0 0 [] up).2.2.1,
                (scanLoop st.src.frames 0 0 [] up).2.2.2⟩]
            else (scanLoop st.src.frames 0 0 [] up).1,
          jumpTableFullyInit :=
            (scanLoop st.src.frames 0 0 [] up).2.1 })) := by
    simp only [linearScanPart]
    rw [hc0, hu0, hjt, hk]
    rfl
  rw [hred, if_neg hne]
  refine ⟨_, rfl, ?_⟩
  show (if ((scanLoop st.src.frames 0 0 [] up).1.getLast?.getD
      ⟨0, 0⟩).uncompressedPos < (scanLoop st.src.frames 0 0 [] up).2.2.2
    then _ else _) ≠ []
  by_cases ht : ((scanLoop st.src.frames 0 0 [] up).1.getLast?.getD
      ⟨0, 0⟩).uncompressedPos < (scanLoop st.src.frames 0 0 [] up).2.2.2
  · rw [if_pos ht]
    intro hcon
    rcases List.append_eq_nil.mp hcon with ⟨_, h2⟩
    simp at h2
  · rw [if_neg ht]
    exact hne

theorem claim_C7_wit :
    initJumpTableUpUntilPos ctxB 100 = linearScanPart ctxB 100 ∧
    ∃ ctx2, linearScanPart ctxB 100 = (0, ctx2) ∧ ctx2.jt ≠ [] :=
  claim_C7 ctxB 100 (Or.inl (by decide)) rfl (by decide)

end ZSeek
